import Mathlib

/-!
Shallow embedding of the core algorithms of the Singapore-property MCP server
(`src/services/databaseManager.ts`, `src/services/oneMapClient.ts`,
`src/utils/stationDeduplication.ts`, `src/utils/distance.ts`,
`src/tools/searchPlanningZones.ts`), together with theorems settling the
frozen specification claims.

Modelling conventions:
* JavaScript numbers are modelled as exact rationals (`ℚ`); the floating-point
  expressions in the claims (unit-price band, distances) involve only
  arithmetic whose relevant comparisons are faithfully mirrored on `ℚ`.
* SQL `SQRT(d2) <= r` is modelled as `0 ≤ r ∧ d2 ≤ r^2`, which is equivalent
  for real arithmetic, and `ORDER BY` on a distance expression is modelled as
  a stable sort on the squared distance (`SQRT` is monotone, so the induced
  order is identical).
* A SQL table is a list of rows in engine row order; `ORDER BY` is a stable
  insertion sort on the listed keys only, so ties keep engine row order,
  exactly as in SQL, where ties carry no further guarantee.
* `NaN`-producing JavaScript conversions (`parseInt` of a non-numeric string)
  are modelled with `Option`; a comparator that returns `NaN` behaves as
  "equal" in `Array.prototype.sort`, and is modelled accordingly.
-/

namespace PropertyAgent

/-! ## JavaScript number / string primitives -/

/-- `Math.round`: round half toward positive infinity. -/
def jsRound (q : ℚ) : ℤ := ⌊q + 1/2⌋

/-- Character is an ASCII decimal digit. -/
def isDigitChar (c : Char) : Bool := '0' ≤ c && c ≤ '9'

/-- Numeric value of a digit character. -/
def digitVal (c : Char) : ℕ := c.toNat - '0'.toNat

/-- Value of a maximal digit prefix, `none` when the first char is no digit
(the `NaN` case of `parseInt`). -/
def digitsPrefixVal : List Char → Option ℕ
  | [] => none
  | c :: cs => if isDigitChar c then some (goAux (digitVal c) cs) else none
where
  /-- Accumulating loop over the remaining digit prefix. -/
  goAux (acc : ℕ) : List Char → ℕ
    | [] => acc
    | c :: cs => if isDigitChar c then goAux (acc * 10 + digitVal c) cs else acc

/-- JavaScript whitespace characters relevant to `\s` and `trim`. -/
def isWsChar (c : Char) : Bool :=
  c = ' ' || c = '\t' || c = '\n' || c = '\r' || c = '\x0b' || c = '\x0c'

/-- `parseInt(s)` with radix 10: skip whitespace, optional sign, then a digit
prefix; `none` models `NaN`. -/
def jsParseInt (s : String) : Option ℤ :=
  match s.toList.dropWhile isWsChar with
  | [] => none
  | c :: rest =>
    if c = '-' then (digitsPrefixVal rest).map (fun n => -(n : ℤ))
    else if c = '+' then (digitsPrefixVal rest).map (fun n => (n : ℤ))
    else (digitsPrefixVal (c :: rest)).map (fun n => (n : ℤ))

/-- `String.prototype.substring(i, j)` (with `i ≤ j` in all uses here). -/
def jsSubstring (s : String) (i j : ℕ) : String :=
  ⟨(s.toList.take j).drop i⟩

/-- `String.prototype.substring(i)`. -/
def jsSubstringFrom (s : String) (i : ℕ) : String :=
  ⟨s.toList.drop i⟩

/-- `Math.ceil(m / 3)` on an integer numerator. -/
def ceilDiv3 (m : ℤ) : ℤ := -((-m).fdiv 3)

/-! ## `parseToQuarter` (databaseManager.ts lines 424-430)

```ts
const month = parseInt(mmyyDate.substring(0, 2));
const year = parseInt(mmyyDate.substring(2, 4));
const fullYear = year < 50 ? 2000 + year : 1900 + year; // Handle Y2K
const quarter = Math.ceil(month / 3);
return `Q${quarter}'${fullYear.toString().substring(2)}`;
```
`none` models the `NaN`-poisoned result of a non-numeric input; all claims
concern numeric inputs. -/

/-- The month field of a contract/lease date: `parseInt` of the first two
characters. -/
def monthOf (mmyyDate : String) : Option ℤ :=
  jsParseInt (jsSubstring mmyyDate 0 2)

/-- The raw two-digit year field: `parseInt` of characters 2..4. -/
def yearOf (mmyyDate : String) : Option ℤ :=
  jsParseInt (jsSubstring mmyyDate 2 4)

/-- `fullYear = year < 50 ? 2000 + year : 1900 + year`. -/
def fullYearOf (mmyyDate : String) : Option ℤ :=
  (yearOf mmyyDate).map (fun year => if year < 50 then 2000 + year else 1900 + year)

/-- `quarter = Math.ceil(month / 3)`. -/
def quarterOf (mmyyDate : String) : Option ℤ :=
  (monthOf mmyyDate).map ceilDiv3

/-- `parseToQuarter`: the rendered `Q<q>'<yy>` string. -/
def parseToQuarter (mmyyDate : String) : Option String := do
  let quarter ← quarterOf mmyyDate
  let fullYear ← fullYearOf mmyyDate
  pure ("Q" ++ toString quarter ++ "'" ++ jsSubstringFrom (toString fullYear) 2)

/-! Test-input constructors for quantifying over all four-digit date strings. -/

/-- The ASCII digit character for a value below ten. -/
def digitChar (d : ℕ) : Char := Char.ofNat (48 + d)

/-- The four-character date string with month field `m` and year field `y`. -/
def mmyyString (m y : Fin 100) : String :=
  ⟨[digitChar ((m : ℕ) / 10), digitChar ((m : ℕ) % 10),
    digitChar ((y : ℕ) / 10), digitChar ((y : ℕ) % 10)]⟩

theorem isDigitChar_digitChar {d : ℕ} (h : d < 10) : isDigitChar (digitChar d) = true := by
  interval_cases d <;> decide

theorem digitVal_digitChar {d : ℕ} (h : d < 10) : digitVal (digitChar d) = d := by
  interval_cases d <;> decide

theorem isWsChar_digitChar {d : ℕ} (h : d < 10) : isWsChar (digitChar d) = false := by
  interval_cases d <;> decide

theorem digitChar_ne_dash {d : ℕ} (h : d < 10) : digitChar d ≠ '-' := by
  interval_cases d <;> decide

theorem digitChar_ne_plus {d : ℕ} (h : d < 10) : digitChar d ≠ '+' := by
  interval_cases d <;> decide

/-- `jsParseInt` on a two-digit-character string yields its decimal value. -/
theorem jsParseInt_two_digits {a b : ℕ} (ha : a < 10) (hb : b < 10) :
    jsParseInt ⟨[digitChar a, digitChar b]⟩ = some ((10 * a + b : ℕ) : ℤ) := by
  rw [jsParseInt]
  simp only [String.toList, List.dropWhile, isWsChar_digitChar ha]
  rw [if_neg (digitChar_ne_dash ha), if_neg (digitChar_ne_plus ha)]
  rw [digitsPrefixVal]
  simp only [isDigitChar_digitChar ha, if_pos, digitsPrefixVal.goAux,
    isDigitChar_digitChar hb, if_true, digitVal_digitChar ha, digitVal_digitChar hb]
  norm_num [Nat.mul_comm]

/-- The code's `Math.ceil(month / 3)` agrees with the mathematical ceiling. -/
theorem ceilDiv3_natCast (m : ℕ) : ceilDiv3 (m : ℤ) = ⌈(m : ℚ) / 3⌉ := by
  rw [ceilDiv3, show ⌈(m : ℚ) / 3⌉ = -⌊-((m : ℚ) / 3)⌋ by rw [Int.floor_neg, neg_neg],
    Int.fdiv_eq_ediv _ (by norm_num)]
  congr 1
  rw [show (-((m : ℚ) / 3)) = ((-(m : ℤ) : ℤ) : ℚ) / ((3 : ℕ) : ℚ) by push_cast; ring]
  rw [Rat.floor_intCast_div_natCast]
  rfl

/-- C3: the claim's boundary fixtures are false of the code. The first two
characters are the month and the last two the year, so `"4900"` has year
field `00` and decodes to full year 2000 (not 2049), and `"5000"` likewise
decodes to full year 2000 (not 1950). -/
theorem C3_counterexample :
    fullYearOf "4900" = some 2000 ∧ fullYearOf "5000" = some 2000 ∧
    fullYearOf "4900" ≠ some 2049 ∧ fullYearOf "5000" ≠ some 1950 ∧
    parseToQuarter "4900" = some "Q17'00" := by
  refine ⟨by decide, by decide, by decide, by decide, by decide⟩

/-- C3 (amended): `parseToQuarter` decodes a 4-character date as month `MM`
(first two characters) plus two-digit year `YY` (last two), with
quarter `= ⌈MM/3⌉` and full year `2000+YY` if `YY < 50` else `1900+YY`;
`"0125"` renders as `Q1'25`, `"1224"` as `Q4'24`, and at the boundary
`"0149"` decodes to year 2049 while `"0150"` decodes to year 1950. -/
theorem C3_parseToQuarter_spec :
    (∀ m y : Fin 100,
      monthOf (mmyyString m y) = some ((m : ℕ) : ℤ) ∧
      quarterOf (mmyyString m y) = some ⌈((m : ℕ) : ℚ) / 3⌉ ∧
      fullYearOf (mmyyString m y) =
        some (if ((y : ℕ) : ℤ) < 50 then 2000 + ((y : ℕ) : ℤ) else 1900 + ((y : ℕ) : ℤ))) ∧
    parseToQuarter "0125" = some "Q1'25" ∧
    parseToQuarter "1224" = some "Q4'24" ∧
    fullYearOf "0149" = some 2049 ∧
    fullYearOf "0150" = some 1950 := by
  refine ⟨fun m y => ?_, by decide, by decide, by decide, by decide⟩
  have hm10 : (m : ℕ) / 10 < 10 := by omega
  have hm1 : (m : ℕ) % 10 < 10 := by omega
  have hy10 : (y : ℕ) / 10 < 10 := by omega
  have hy1 : (y : ℕ) % 10 < 10 := by omega
  have hmonth : monthOf (mmyyString m y) = some ((m : ℕ) : ℤ) := by
    rw [monthOf, mmyyString, show jsSubstring
        ⟨[digitChar ((m : ℕ) / 10), digitChar ((m : ℕ) % 10),
          digitChar ((y : ℕ) / 10), digitChar ((y : ℕ) % 10)]⟩ 0 2 =
        ⟨[digitChar ((m : ℕ) / 10), digitChar ((m : ℕ) % 10)]⟩ by rfl]
    rw [jsParseInt_two_digits hm10 hm1]
    congr 1
    omega
  have hyear : yearOf (mmyyString m y) = some ((y : ℕ) : ℤ) := by
    rw [yearOf, mmyyString, show jsSubstring
        ⟨[digitChar ((m : ℕ) / 10), digitChar ((m : ℕ) % 10),
          digitChar ((y : ℕ) / 10), digitChar ((y : ℕ) % 10)]⟩ 2 4 =
        ⟨[digitChar ((y : ℕ) / 10), digitChar ((y : ℕ) % 10)]⟩ by rfl]
    rw [jsParseInt_two_digits hy10 hy1]
    congr 1
    omega
  refine ⟨hmonth, ?_, ?_⟩
  · rw [quarterOf, hmonth, Option.map_some', ceilDiv3_natCast]
  · rw [fullYearOf, hyear, Option.map_some']

/-! ## Relational data model (database/schema.sql)

A table is a list of rows in engine row order; `id` mirrors the
`INTEGER PRIMARY KEY` column. Nullable columns are `Option`. -/

structure PropertyRow where
  id : ℕ
  project : String
  street : String
  x : ℚ
  y : ℚ
  market_segment : Option String
  district : Option String
deriving DecidableEq, Repr

structure TransactionRow where
  property_id : ℕ
  price : ℤ
  area : ℚ
  contract_date : String
  property_type : String
  tenure : Option String
  type_of_sale : Option String
deriving DecidableEq, Repr

structure RentalRow where
  property_id : ℕ
  rent : ℤ
  lease_date : String
deriving DecidableEq, Repr

structure Database where
  properties : List PropertyRow
  transactions : List TransactionRow
  rentals : List RentalRow
deriving DecidableEq, Repr

/-! ## SQL / JS helper semantics -/

/-- `SELECT DISTINCT` over an already-materialised row list: keep the first
occurrence of each row value. -/
def sqlDistinct {α : Type _} [DecidableEq α] : List α → List α
  | [] => []
  | a :: l => a :: ((sqlDistinct l).filter (fun b => b ≠ a))

/-- SQLite `SUBSTR(s, -n)`: the last `n` characters (the whole string when it
is shorter). -/
def sqliteSubstrLast (s : String) (n : ℕ) : String :=
  ⟨s.toList.drop (s.toList.length - n)⟩

/-- SQLite `CAST(s AS INTEGER)`: the longest integer prefix after optional
whitespace and sign, `0` when there is none. -/
def sqliteCastInt (s : String) : ℤ :=
  (jsParseInt s).getD 0

/-- Squared Euclidean distance between two planar points. -/
def distSq (x₁ y₁ x₂ y₂ : ℚ) : ℚ := (x₁ - x₂) ^ 2 + (y₁ - y₂) ^ 2

/-- SQL `SQRT(d2) <= r` for a nonnegative radicand `d2`, expressed without
square roots: equivalent to `0 ≤ r ∧ d2 ≤ r²`. -/
def sqrtLe (d2 r : ℚ) : Bool := decide (0 ≤ r) && decide (d2 ≤ r ^ 2)

/-- Validation that `sqrtLe` is exactly the SQL comparison on reals. -/
theorem sqrtLe_iff_sqrt_le (d2 r : ℚ) (h : 0 ≤ d2) :
    sqrtLe d2 r = true ↔ Real.sqrt (d2 : ℝ) ≤ (r : ℝ) := by
  rw [sqrtLe]
  simp only [Bool.and_eq_true, decide_eq_true_eq]
  constructor
  · rintro ⟨hr, hle⟩
    calc Real.sqrt (d2 : ℝ) ≤ Real.sqrt ((r : ℝ) ^ 2) := by
          apply Real.sqrt_le_sqrt
          exact_mod_cast hle
      _ = |(r : ℝ)| := by rw [Real.sqrt_sq_eq_abs]
      _ = (r : ℝ) := abs_of_nonneg (by exact_mod_cast hr)
  · intro hle
    have hr : (0 : ℝ) ≤ (r : ℝ) := le_trans (Real.sqrt_nonneg _) hle
    refine ⟨by exact_mod_cast hr, ?_⟩
    have := Real.sq_sqrt (show (0 : ℝ) ≤ (d2 : ℝ) by exact_mod_cast h)
    have h2 : Real.sqrt (d2 : ℝ) ^ 2 ≤ (r : ℝ) ^ 2 := by
      apply pow_le_pow_left (Real.sqrt_nonneg _) hle
    rw [this] at h2
    exact_mod_cast h2

/-- JS truthiness of an optional number (`0` is falsy). -/
def truthyNum (o : Option ℤ) : Bool := o.elim false (fun v => v ≠ 0)

/-- JS truthiness of an optional string (`""` is falsy). -/
def truthyStr (o : Option String) : Bool := o.elim false (fun s => s ≠ "")

/-- JS truthiness of an optional array (any array, even empty, is truthy). -/
def truthyArr {α : Type _} (o : Option (List α)) : Bool := o.isSome

/-- `xs && xs.length > 0`. -/
def nonEmptyArr {α : Type _} (o : Option (List α)) : Bool :=
  o.elim false (fun l => !l.isEmpty)

/-- SQL `col IN (list)` for a nullable text column (`NULL IN …` is not true). -/
def sqlInOpt (col : Option String) (l : List String) : Bool :=
  col.elim false (fun s => s ∈ l)

/-! ## `createSearchBounds` (utils/distance.ts lines 77-87) -/

structure Coordinates where
  x : ℚ
  y : ℚ
deriving DecidableEq, Repr

structure SearchBounds where
  minX : ℚ
  maxX : ℚ
  minY : ℚ
  maxY : ℚ
deriving DecidableEq, Repr

def createSearchBounds (center : Coordinates) (radiusMeters : ℚ) : SearchBounds :=
  { minX := center.x - radiusMeters
    maxX := center.x + radiusMeters
    minY := center.y - radiusMeters
    maxY := center.y + radiusMeters }

/-! ## `searchPropertiesNear` (databaseManager.ts lines 288-419) -/

structure PropertySearchOptions where
  maxDistanceMeters : Option ℚ := none
  minPrice : Option ℤ := none
  maxPrice : Option ℤ := none
  propertyTypes : Option (List String) := none
  marketSegments : Option (List String) := none
  districts : Option (List String) := none
  fromDate : Option String := none
  toDate : Option String := none
  minCompletionYear : Option ℤ := none
  maxPropertyAge : Option ℤ := none
  saleTypes : Option (List String) := none
  limit : Option ℕ := none
deriving DecidableEq, Repr

/-- One row of the search query's result set: the property columns plus the
computed distance, carried as its square (`SQRT` is monotone, so every
comparison and ordering on the distance is faithfully mirrored). -/
structure PropertyHit where
  row : PropertyRow
  distanceSq : ℚ
deriving DecidableEq, Repr

/-- The `EXISTS (SELECT 1 FROM transactions t WHERE …)` sub-predicate; each
sub-filter is appended only when its option is truthy, mirroring the
condition-by-condition query construction. -/
def transactionExistsFilter (db : Database) (o : PropertySearchOptions) (p : PropertyRow) : Bool :=
  db.transactions.any (fun t =>
    t.property_id = p.id
    && (!truthyNum o.minPrice || o.minPrice.elim true (fun v => v ≤ t.price))
    && (!truthyNum o.maxPrice || o.maxPrice.elim true (fun v => t.price ≤ v))
    && (!nonEmptyArr o.propertyTypes
        || o.propertyTypes.elim true (fun l => t.property_type ∈ l))
    && (!truthyStr o.fromDate || o.fromDate.elim true (fun d => d ≤ t.contract_date))
    && (!truthyStr o.toDate || o.toDate.elim true (fun d => t.contract_date ≤ d))
    && (!truthyNum o.minCompletionYear
        || o.minCompletionYear.elim true (fun v =>
            t.tenure.elim false (fun ten => v ≤ sqliteCastInt (sqliteSubstrLast ten 4))))
    && (!truthyNum o.maxPropertyAge
        || o.maxPropertyAge.elim true (fun v =>
            t.tenure.elim false (fun ten => 2025 - v ≤ sqliteCastInt (sqliteSubstrLast ten 4))))
    && (!nonEmptyArr o.saleTypes
        || o.saleTypes.elim true (fun l => sqlInOpt t.type_of_sale l)))

/-- The full `WHERE` clause of the single-center query for one property row:
bounding box, exact radius (`SQRT(…) <= maxDistanceMeters`), attribute
filters, and the transaction `EXISTS` filter (appended only when some
transaction-level option is truthy). -/
def propertyWhere (db : Database) (center : Coordinates) (bounds : SearchBounds)
    (maxDistanceMeters : ℚ) (o : PropertySearchOptions) (p : PropertyRow) : Bool :=
  decide (bounds.minX ≤ p.x) && decide (p.x ≤ bounds.maxX)
  && decide (bounds.minY ≤ p.y) && decide (p.y ≤ bounds.maxY)
  && sqrtLe (distSq p.x p.y center.x center.y) maxDistanceMeters
  && (!nonEmptyArr o.marketSegments
      || o.marketSegments.elim true (fun l => sqlInOpt p.market_segment l))
  && (!nonEmptyArr o.districts || o.districts.elim true (fun l => sqlInOpt p.district l))
  && (!(truthyNum o.minPrice || truthyNum o.maxPrice || truthyArr o.propertyTypes
        || truthyStr o.fromDate || truthyStr o.toDate || truthyNum o.minCompletionYear
        || truthyNum o.maxPropertyAge || truthyArr o.saleTypes)
      || transactionExistsFilter db o p)

/-- Ordering relation of `ORDER BY distance ASC` (no further sort key):
the stable-sort "may precede" relation. -/
def hitLe (a b : PropertyHit) : Prop := a.distanceSq ≤ b.distanceSq

instance : DecidableRel hitLe := fun a b => inferInstanceAs (Decidable (_ ≤ _))

instance : IsTotal PropertyHit hitLe := ⟨fun a b => le_total a.distanceSq b.distanceSq⟩

instance : IsTrans PropertyHit hitLe := ⟨fun _ _ _ h₁ h₂ => le_trans h₁ h₂⟩

/-- The materialised, ordered result set of the single-center query, before
`LIMIT` — parameterised by the bounding box to express that correctness does
not depend on its width. -/
def searchRowsSorted (db : Database) (center : Coordinates) (bounds : SearchBounds)
    (maxDistanceMeters : ℚ) (o : PropertySearchOptions) : List PropertyHit :=
  List.insertionSort hitLe
    (sqlDistinct
      ((db.properties.filter (propertyWhere db center bounds maxDistanceMeters o)).map
        (fun p => ⟨p, distSq p.x p.y center.x center.y⟩)))

/-! ## Quarterly trends (databaseManager.ts lines 432-537)

The quarter key is `parseToQuarter date : Option String`; `none` models the
`"QNaN'N"` string that every `NaN`-poisoned date produces (all such dates
collide on one key, exactly as in the source). -/

structure QuarterlyPriceTrend where
  quarter : Option String
  avgPricePerSqf : ℤ
  transactionCount : ℕ
deriving DecidableEq, Repr

structure RecentRentalInfo where
  avgRent : ℤ
  quarter : Option String
  rentalCount : ℕ
deriving DecidableEq, Repr

/-- Accumulator value of the `quarterlyData` map. -/
structure QuarterAccum where
  total : ℚ
  count : ℕ
  pricePerSqfSum : ℚ
deriving DecidableEq, Repr

/-- JS `Map` update: mutate the value under an existing key in place (keys
keep insertion order), append a fresh key at the end. -/
def mapUpsert {κ ν : Type _} [DecidableEq κ] (m : List (κ × ν)) (k : κ) (init : ν)
    (f : ν → ν) : List (κ × ν) :=
  if m.any (fun e => e.1 = k) then
    m.map (fun e => if e.1 = k then (e.1, f e.2) else e)
  else
    m ++ [(k, f init)]

/-- Unit price per square foot: `price / (area * 10.764)`. -/
def pricePerSqf (t : TransactionRow) : ℚ := (t.price : ℚ) / (t.area * (10.764 : ℚ))

/-- A unit price inside the plausible band (`$200`–`$10000` per sqf): these
are exactly the records the `forEach` body does not skip. -/
def bandOK (t : TransactionRow) : Bool :=
  !(decide (pricePerSqf t < 200) || decide (pricePerSqf t > 10000))

/-- The validity pre-filter (`t.price > 0 && t.area > 0`). -/
def validTx (t : TransactionRow) : Bool := decide (0 < t.price) && decide (0 < t.area)

/-- A record survives into the trend aggregates unless it is valid but
out-of-band. -/
def keepTx (t : TransactionRow) : Bool := !validTx t || bandOK t

/-- One step of the `validTransactions.forEach` loop building `quarterlyData`:
out-of-band unit prices (`< 200` or `> 10000`) are skipped. -/
def trendStep (m : List (Option String × QuarterAccum)) (t : TransactionRow) :
    List (Option String × QuarterAccum) :=
  let quarter := parseToQuarter t.contract_date
  let psf := pricePerSqf t
  if psf < 200 ∨ psf > 10000 then m
  else
    mapUpsert m quarter ⟨0, 0, 0⟩
      (fun d => { d with count := d.count + 1, pricePerSqfSum := d.pricePerSqfSum + psf })

/-- JS `!==` on two possibly-`NaN` numbers (`NaN !== NaN` is true). -/
def jsStrictNeq (a b : Option ℤ) : Bool :=
  match a, b with
  | some x, some y => x ≠ y
  | _, _ => true

/-- JS subtraction propagating `NaN`. -/
def jsSub (a b : Option ℤ) : Option ℤ :=
  match a, b with
  | some x, some y => some (x - y)
  | _, _ => none

/-- The trend sort comparator (numeric result, `none` = `NaN`):
`parseInt(q.substring(2))` on a `"Q1'25"`-shaped key hits the apostrophe and
is `NaN`; on the `"QNaN'N"` key (`none`) both fields are `NaN`. -/
def trendCompare (a b : Option String) : Option ℤ :=
  let aYear := a.elim none (fun s => jsParseInt (jsSubstringFrom s 2))
  let bYear := b.elim none (fun s => jsParseInt (jsSubstringFrom s 2))
  let aQ := a.elim none (fun s => jsParseInt (jsSubstring s 1 2))
  let bQ := b.elim none (fun s => jsParseInt (jsSubstring s 1 2))
  if jsStrictNeq aYear bYear then jsSub aYear bYear else jsSub aQ bQ

/-- Stable-sort "may precede" relation for a JS comparator: an element may
stay before another iff the comparator does not return a positive number
(a `NaN` result behaves as `0` in `Array.prototype.sort`). -/
def cmpLe (c : Option ℤ) : Prop := ∀ v, c = some v → v ≤ 0

instance (c : Option ℤ) : Decidable (cmpLe c) := by
  unfold cmpLe
  cases c with
  | none => exact isTrue (by simp)
  | some v =>
    by_cases h : v ≤ 0
    · exact isTrue (by simpa using h)
    · exact isFalse (by simpa using h)

/-- `trends.sort((a, b) => …)` relation. -/
def trendLe (a b : QuarterlyPriceTrend) : Prop := cmpLe (trendCompare a.quarter b.quarter)

instance : DecidableRel trendLe := fun a b => inferInstanceAs (Decidable (cmpLe _))

/-- `slice(-n)`: the last `n` elements. -/
def jsSliceLast {α : Type _} (n : ℕ) (l : List α) : List α := l.drop (l.length - n)

/-- `calculatePriceTrends` (lines 435-489): filter to valid records, fold the
quarter map (skipping out-of-band unit prices), average, sort, keep the last
20 quarters. -/
def calculatePriceTrends (transactions : List TransactionRow) : List QuarterlyPriceTrend :=
  if transactions.isEmpty then []
  else if (transactions.filter validTx).isEmpty then []
  else
    jsSliceLast 20 (List.insertionSort trendLe
      (((transactions.filter validTx).foldl trendStep []).map (fun e =>
        { quarter := e.1
          avgPricePerSqf := jsRound (e.2.pricePerSqfSum / (e.2.count : ℚ))
          transactionCount := e.2.count })))

/-- The reverse-chronological comparator used on rental quarter keys
(`(a, b) => bYear - aYear` / `bQ - aQ`, again `NaN` on both year fields). -/
def rentalQuarterCompare (a b : Option String) : Option ℤ :=
  let aYear := a.elim none (fun s => jsParseInt (jsSubstringFrom s 2))
  let bYear := b.elim none (fun s => jsParseInt (jsSubstringFrom s 2))
  let aQ := a.elim none (fun s => jsParseInt (jsSubstring s 1 2))
  let bQ := b.elim none (fun s => jsParseInt (jsSubstring s 1 2))
  if jsStrictNeq aYear bYear then jsSub bYear aYear else jsSub bQ aQ

def rentalQuarterLe (a b : Option String) : Prop := cmpLe (rentalQuarterCompare a b)

instance : DecidableRel rentalQuarterLe := fun a b => inferInstanceAs (Decidable (cmpLe _))

/-- Accumulator value of the `quarterlyRentals` map. -/
structure RentalAccum where
  rents : List ℤ
  count : ℕ
deriving DecidableEq, Repr

def rentalStep (m : List (Option String × RentalAccum)) (r : RentalRow) :
    List (Option String × RentalAccum) :=
  mapUpsert m (parseToQuarter r.lease_date) ⟨[], 0⟩
    (fun d => { d with rents := d.rents ++ [r.rent], count := d.count + 1 })

/-- `getRecentRentalInfo` (lines 494-537). -/
def getRecentRentalInfo (rentals : List RentalRow) : Option RecentRentalInfo :=
  if rentals.isEmpty then none
  else
    let validRentals := rentals.filter (fun r => 0 < r.rent)
    if validRentals.isEmpty then none
    else
      let quarterlyRentals := validRentals.foldl rentalStep []
      let quarters := List.insertionSort rentalQuarterLe (quarterlyRentals.map (fun e => e.1))
      match quarters with
      | [] => none
      | mostRecentQuarter :: _ =>
        match quarterlyRentals.find? (fun e => e.1 = mostRecentQuarter) with
        | none => none
        | some e =>
          some { avgRent := jsRound ((e.2.rents.foldl (· + ·) 0 : ℚ) / (e.2.count : ℚ))
                 quarter := mostRecentQuarter
                 rentalCount := e.2.count }

/-! ## `enrichPropertyData` (lines 542-578) -/

structure PropertySearchResult where
  property : PropertyRow
  recentTransactions : List TransactionRow
  recentRentals : List RentalRow
  distanceSq : ℚ
  pricePerSqfTrend : List QuarterlyPriceTrend
  latestPrice : Option ℤ
  recentRentalInfo : Option RecentRentalInfo
deriving DecidableEq, Repr

/-- `ORDER BY contract_date DESC` stable "may precede" relation. -/
def txDateDesc (a b : TransactionRow) : Prop := b.contract_date ≤ a.contract_date

instance : DecidableRel txDateDesc := fun a b => inferInstanceAs (Decidable (_ ≤ _))

instance : IsTotal TransactionRow txDateDesc := ⟨fun a b => le_total b.contract_date a.contract_date⟩

instance : IsTrans TransactionRow txDateDesc := ⟨fun _ _ _ h₁ h₂ => le_trans h₂ h₁⟩

/-- `ORDER BY lease_date DESC` stable "may precede" relation. -/
def rentalDateDesc (a b : RentalRow) : Prop := b.lease_date ≤ a.lease_date

instance : DecidableRel rentalDateDesc := fun a b => inferInstanceAs (Decidable (_ ≤ _))

/-- The ten most recent transactions of a property
(`ORDER BY contract_date DESC LIMIT 10`). -/
def recentTransactionsOf (db : Database) (propertyId : ℕ) : List TransactionRow :=
  (List.insertionSort txDateDesc
    (db.transactions.filter (fun t => t.property_id = propertyId))).take 10

/-- The ten most recent rentals of a property
(`ORDER BY lease_date DESC LIMIT 10`). -/
def recentRentalsOf (db : Database) (propertyId : ℕ) : List RentalRow :=
  (List.insertionSort rentalDateDesc
    (db.rentals.filter (fun r => r.property_id = propertyId))).take 10

def enrichPropertyData (db : Database) (hit : PropertyHit) : PropertySearchResult :=
  let recentTransactions := recentTransactionsOf db hit.row.id
  let recentRentals := recentRentalsOf db hit.row.id
  { property := hit.row
    recentTransactions := recentTransactions
    recentRentals := recentRentals
    distanceSq := hit.distanceSq
    pricePerSqfTrend := calculatePriceTrends recentTransactions
    latestPrice := recentTransactions.head?.map (fun t => t.price)
    recentRentalInfo := getRecentRentalInfo recentRentals }

/-! ## `searchPropertiesNear`, response assembly (lines 401-419) -/

structure PropertySearchResponse where
  results : List PropertySearchResult
  truncated : Bool
  totalAvailable : Option ℕ
deriving DecidableEq, Repr

/-- The response pipeline with the bounding box as an explicit parameter;
`searchPropertiesNear` instantiates it with `createSearchBounds`. -/
def searchPropertiesNearWithBounds (db : Database) (center : Coordinates)
    (bounds : SearchBounds) (o : PropertySearchOptions) : PropertySearchResponse :=
  let maxDistanceMeters := o.maxDistanceMeters.getD 2000
  let limit := o.limit.getD 50
  let sortedHits := searchRowsSorted db center bounds maxDistanceMeters o
  let properties := sortedHits.take limit
  let checkProperties := sortedHits.take (limit + 1)
  let truncated := decide (limit < checkProperties.length)
  let actualResults := properties.take limit
  { results := actualResults.map (enrichPropertyData db)
    truncated := truncated
    totalAvailable := if truncated then none else some actualResults.length }

def searchPropertiesNear (db : Database) (center : Coordinates)
    (o : PropertySearchOptions) : PropertySearchResponse :=
  searchPropertiesNearWithBounds db center
    (createSearchBounds center (o.maxDistanceMeters.getD 2000)) o

/-! ## `searchPropertiesNearMultiple` (databaseManager.ts lines 583-733) -/

structure SearchCenter where
  x : ℚ
  y : ℚ
  name : String
  radius : Option ℚ := none
deriving DecidableEq, Repr

/-- `center.radius || 1200` (`0` is falsy). -/
def effectiveRadius (c : SearchCenter) : ℚ :=
  c.radius.elim 1200 (fun r => if r = 0 then 1200 else r)

/-- One row of the `multi_center_results` CTE. `centerIdx` is the position of
the generating center in the caller's list — provenance made explicit by the
order of the `UNION ALL` branches, carried here to let theorems speak about
input order. -/
structure CenterRow where
  row : PropertyRow
  search_center : String
  centerIdx : ℕ
  distanceSqToCenter : ℚ
deriving DecidableEq, Repr

/-- One `SELECT DISTINCT … WHERE bbox AND SQRT(…) <= radius` branch of the
`UNION ALL`. -/
def centerBlock (db : Database) (i : ℕ) (c : SearchCenter) : List CenterRow :=
  let radius := effectiveRadius c
  let bounds := createSearchBounds ⟨c.x, c.y⟩ radius
  sqlDistinct
    ((db.properties.filter (fun p =>
        decide (bounds.minX ≤ p.x) && decide (p.x ≤ bounds.maxX)
        && decide (bounds.minY ≤ p.y) && decide (p.y ≤ bounds.maxY)
        && sqrtLe (distSq p.x p.y c.x c.y) radius)).map
      (fun p => ⟨p, c.name, i, distSq p.x p.y c.x c.y⟩))

/-- The `UNION ALL` of all center branches, in caller order. -/
def multiCenterResults (db : Database) : ℕ → List SearchCenter → List CenterRow
  | _, [] => []
  | i, c :: cs => centerBlock db i c ++ multiCenterResults db (i + 1) cs

/-- Scan for the minimal-distance row; on exact ties the earlier row wins
(the stable reading of `ROW_NUMBER() OVER (… ORDER BY distance_to_center)`,
whose `ORDER BY` lists no tie-break key). -/
def bestOf (h : CenterRow) (t : List CenterRow) : CenterRow :=
  t.foldl (fun b r => if r.distanceSqToCenter < b.distanceSqToCenter then r else b) h

/-- `WHERE closest_rank = 1`: keep, per property id, the first
minimal-distance row of its partition. -/
def closestAssignment (rows : List CenterRow) : List CenterRow :=
  (sqlDistinct (rows.map (fun r => r.row.id))).filterMap (fun i =>
    match rows.filter (fun r => r.row.id = i) with
    | [] => none
    | h :: t => some (bestOf h t))

/-- The transaction `EXISTS` sub-predicate of the multi-center query (only
price / type / date sub-filters exist here). -/
def multiTransactionExistsFilter (db : Database) (o : PropertySearchOptions)
    (p : PropertyRow) : Bool :=
  db.transactions.any (fun t =>
    t.property_id = p.id
    && (!truthyNum o.minPrice || o.minPrice.elim true (fun v => v ≤ t.price))
    && (!truthyNum o.maxPrice || o.maxPrice.elim true (fun v => t.price ≤ v))
    && (!nonEmptyArr o.propertyTypes
        || o.propertyTypes.elim true (fun l => t.property_type ∈ l))
    && (!truthyStr o.fromDate || o.fromDate.elim true (fun d => d ≤ t.contract_date))
    && (!truthyStr o.toDate || o.toDate.elim true (fun d => t.contract_date ≤ d)))

/-- Attribute filters appended after `WHERE closest_rank = 1`. -/
def multiPostWhere (db : Database) (o : PropertySearchOptions) (r : CenterRow) : Bool :=
  (!nonEmptyArr o.marketSegments
      || o.marketSegments.elim true (fun l => sqlInOpt r.row.market_segment l))
  && (!nonEmptyArr o.districts || o.districts.elim true (fun l => sqlInOpt r.row.district l))
  && (!(truthyNum o.minPrice || truthyNum o.maxPrice || truthyArr o.propertyTypes
        || truthyStr o.fromDate || truthyStr o.toDate)
      || multiTransactionExistsFilter db o r.row)

/-- `ORDER BY search_center, distance_to_center ASC` stable "may precede"
relation: the leading key is the center's *name* (BINARY text collation). -/
def centerRowLe (a b : CenterRow) : Prop :=
  a.search_center < b.search_center
  ∨ (a.search_center = b.search_center ∧ a.distanceSqToCenter ≤ b.distanceSqToCenter)

instance : DecidableRel centerRowLe := fun a b =>
  inferInstanceAs (Decidable (_ ∨ _))

instance : IsTotal CenterRow centerRowLe := by
  constructor
  intro a b
  rcases lt_trichotomy a.search_center b.search_center with h | h | h
  · exact Or.inl (Or.inl h)
  · rcases le_total a.distanceSqToCenter b.distanceSqToCenter with h' | h'
    · exact Or.inl (Or.inr ⟨h, h'⟩)
    · exact Or.inr (Or.inr ⟨h.symm, h'⟩)
  · exact Or.inr (Or.inl h)

instance : IsTrans CenterRow centerRowLe := by
  constructor
  rintro a b c (hab | ⟨hab, hab'⟩) (hbc | ⟨hbc, hbc'⟩)
  · exact Or.inl (lt_trans hab hbc)
  · exact Or.inl (lt_of_lt_of_eq hab hbc)
  · exact Or.inl (lt_of_eq_of_lt hab hbc)
  · exact Or.inr ⟨hab.trans hbc, le_trans hab' hbc'⟩

structure MultiSearchResult where
  base : PropertySearchResult
  searchCenter : String
  centerIdx : ℕ
  distanceSqToCenter : ℚ
deriving DecidableEq, Repr

structure MultiSearchResponse where
  results : List MultiSearchResult
  truncated : Bool
  totalAvailable : Option ℕ
deriving DecidableEq, Repr

/-- The materialised, ordered multi-center result set before `LIMIT`. -/
def multiRowsSorted (db : Database) (centers : List SearchCenter)
    (o : PropertySearchOptions) : List CenterRow :=
  List.insertionSort centerRowLe
    ((closestAssignment (multiCenterResults db 0 centers)).filter (multiPostWhere db o))

def searchPropertiesNearMultiple (db : Database) (centers : List SearchCenter)
    (o : PropertySearchOptions) : MultiSearchResponse :=
  let limit := o.limit.getD 100
  let sorted := multiRowsSorted db centers o
  let properties := sorted.take limit
  let checkProperties := sorted.take (limit + 1)
  let truncated := decide (limit < checkProperties.length)
  let actualResults := properties.take limit
  { results := actualResults.map (fun r =>
      { base := enrichPropertyData db ⟨r.row, r.distanceSqToCenter⟩
        searchCenter := r.search_center
        centerIdx := r.centerIdx
        distanceSqToCenter := r.distanceSqToCenter })
    truncated := truncated
    totalAvailable := if truncated then none else some actualResults.length }

/-! ## Generic lemmas about the query building blocks -/

theorem mem_sqlDistinct {α : Type _} [DecidableEq α] {a : α} :
    ∀ {l : List α}, a ∈ sqlDistinct l ↔ a ∈ l := by
  intro l
  induction l with
  | nil => simp [sqlDistinct]
  | cons x l ih =>
    rw [sqlDistinct]
    constructor
    · intro h
      rcases List.mem_cons.mp h with h | h
      · exact h ▸ List.mem_cons_self _ _
      · exact List.mem_cons_of_mem _ (ih.mp (List.mem_filter.mp h).1)
    · intro h
      rcases List.mem_cons.mp h with h | h
      · exact h ▸ List.mem_cons_self _ _
      · by_cases hax : a = x
        · exact hax ▸ List.mem_cons_self _ _
        · exact List.mem_cons_of_mem _
            (List.mem_filter.mpr ⟨ih.mpr h, by simpa using hax⟩)

theorem nodup_sqlDistinct {α : Type _} [DecidableEq α] :
    ∀ {l : List α}, (sqlDistinct l).Nodup := by
  intro l
  induction l with
  | nil => simp [sqlDistinct]
  | cons x l ih =>
    rw [sqlDistinct]
    refine List.nodup_cons.mpr ⟨fun hx => ?_, ih.filter _⟩
    have := (List.mem_filter.mp hx).2
    simp at this

/-- Membership for the sorted single-center result set. -/
theorem mem_searchRowsSorted {db : Database} {center : Coordinates} {bounds : SearchBounds}
    {maxD : ℚ} {o : PropertySearchOptions} {hit : PropertyHit} :
    hit ∈ searchRowsSorted db center bounds maxD o ↔
      ∃ p ∈ db.properties, propertyWhere db center bounds maxD o p = true ∧
        hit = ⟨p, distSq p.x p.y center.x center.y⟩ := by
  rw [searchRowsSorted, (List.perm_insertionSort hitLe _).mem_iff, mem_sqlDistinct]
  simp only [List.mem_map, List.mem_filter]
  constructor
  · rintro ⟨p, ⟨hp, hw⟩, rfl⟩
    exact ⟨p, hp, hw, rfl⟩
  · rintro ⟨p, hp, hw, rfl⟩
    exact ⟨p, ⟨hp, hw⟩, rfl⟩

/-- C1: every result of the exact-radius search lies within the requested
radius — the bounding box is an explicit parameter here, so the guarantee
holds regardless of its width: the returned squared distance is the true
squared Euclidean distance from the center and is at most `radius²`
(with a nonnegative radius), which on reals is exactly
`distance ≤ radius`. -/
theorem C1_radius_soundness (db : Database) (center : Coordinates) (bounds : SearchBounds)
    (o : PropertySearchOptions) (res : PropertySearchResult)
    (h : res ∈ (searchPropertiesNearWithBounds db center bounds o).results) :
    res.distanceSq = distSq res.property.x res.property.y center.x center.y ∧
    0 ≤ o.maxDistanceMeters.getD 2000 ∧
    res.distanceSq ≤ (o.maxDistanceMeters.getD 2000) ^ 2 := by
  rw [searchPropertiesNearWithBounds] at h
  simp only [List.mem_map] at h
  obtain ⟨hit, hmem, rfl⟩ := h
  have hmem' : hit ∈ searchRowsSorted db center bounds (o.maxDistanceMeters.getD 2000) o :=
    List.mem_of_mem_take (List.mem_of_mem_take hmem)
  obtain ⟨p, _, hw, rfl⟩ := mem_searchRowsSorted.mp hmem'
  have hsq : sqrtLe (distSq p.x p.y center.x center.y) (o.maxDistanceMeters.getD 2000) = true := by
    simp only [propertyWhere, Bool.and_eq_true] at hw
    exact hw.1.1.1.2
  rw [sqrtLe, Bool.and_eq_true, decide_eq_true_eq, decide_eq_true_eq] at hsq
  exact ⟨rfl, hsq.1, hsq.2⟩

/-- C1 witness: a property at the center is returned and satisfies the radius
bound for the default 2000m radius. -/
theorem C1_witness :
    (enrichPropertyData ⟨[⟨1, "P", "S", 0, 0, none, none⟩], [], []⟩ ⟨⟨1, "P", "S", 0, 0, none, none⟩, 0⟩).distanceSq =
      distSq 0 0 0 0 ∧
    (0 : ℚ) ≤ (2000 : ℚ) ∧
    (enrichPropertyData ⟨[⟨1, "P", "S", 0, 0, none, none⟩], [], []⟩ ⟨⟨1, "P", "S", 0, 0, none, none⟩, 0⟩).distanceSq ≤ (2000 : ℚ) ^ 2 := by
  have := C1_radius_soundness ⟨[⟨1, "P", "S", 0, 0, none, none⟩], [], []⟩ ⟨0, 0⟩
    (createSearchBounds ⟨0, 0⟩ 2000) {}
    (enrichPropertyData ⟨[⟨1, "P", "S", 0, 0, none, none⟩], [], []⟩ ⟨⟨1, "P", "S", 0, 0, none, none⟩, 0⟩)
    (by with_unfolding_all decide)
  exact this

/-- C10: both search responses return at most `limit` results, and
`totalAvailable` is exactly the returned count when `truncated` is false and
absent (`undefined`) when it is true. -/
theorem C10_truncation_invariants (db : Database) (center : Coordinates)
    (centers : List SearchCenter) (o : PropertySearchOptions) :
    ((searchPropertiesNear db center o).results.length ≤ o.limit.getD 50 ∧
      (searchPropertiesNear db center o).totalAvailable =
        (if (searchPropertiesNear db center o).truncated
         then none else some (searchPropertiesNear db center o).results.length)) ∧
    ((searchPropertiesNearMultiple db centers o).results.length ≤ o.limit.getD 100 ∧
      (searchPropertiesNearMultiple db centers o).totalAvailable =
        (if (searchPropertiesNearMultiple db centers o).truncated
         then none else some (searchPropertiesNearMultiple db centers o).results.length)) := by
  constructor
  · constructor
    · simp only [searchPropertiesNear, searchPropertiesNearWithBounds, List.length_map]
      exact List.length_take_le _ _
    · simp only [searchPropertiesNear, searchPropertiesNearWithBounds, List.length_map]
  · constructor
    · simp only [searchPropertiesNearMultiple, List.length_map]
      exact List.length_take_le _ _
    · simp only [searchPropertiesNearMultiple, List.length_map]

/-- C8 counterexample: the single-center query orders by distance only — it
has no identifier tie-break. Two properties at equal distance 5 from the
center ((3,4) and (4,3)) are returned in engine row order `[2, 1]`, not in
ascending identifier order `[1, 2]`. -/
theorem C8_counterexample :
    ((searchPropertiesNear ⟨[⟨2, "P2", "S2", 3, 4, none, none⟩, ⟨1, "P1", "S1", 4, 3, none, none⟩], [], []⟩
        ⟨0, 0⟩ {}).results.map (fun r => r.property.id)) = [2, 1] ∧
    ((searchPropertiesNear ⟨[⟨2, "P2", "S2", 3, 4, none, none⟩, ⟨1, "P1", "S1", 4, 3, none, none⟩], [], []⟩
        ⟨0, 0⟩ {}).results.map (fun r => r.distanceSq)) = [25, 25] ∧
    ([2, 1] : List ℕ) ≠ [1, 2] := by
  refine ⟨?_, ?_, by decide⟩
  · with_unfolding_all decide
  · with_unfolding_all decide

/-- C8 (amended): results are ordered by ascending true Euclidean distance
(equivalently ascending squared distance) and capped at the caller's limit;
equal distances carry no identifier tie-break — ties keep the engine's row
order. -/
theorem C8_distance_order_and_cap (db : Database) (center : Coordinates)
    (o : PropertySearchOptions) :
    List.Pairwise (fun a b : PropertySearchResult => a.distanceSq ≤ b.distanceSq)
      (searchPropertiesNear db center o).results ∧
    (searchPropertiesNear db center o).results.length ≤ o.limit.getD 50 := by
  constructor
  · simp only [searchPropertiesNear, searchPropertiesNearWithBounds]
    refine List.Pairwise.map _ (fun a b h => ?_)
      (((List.sorted_insertionSort hitLe _).sublist
        ((List.take_sublist _ _).trans (List.take_sublist _ _))))
    exact h
  · simp only [searchPropertiesNear, searchPropertiesNearWithBounds, List.length_map]
    exact List.length_take_le _ _

/-- C7 counterexample: the multi-center output is ordered by
`ORDER BY search_center`, i.e. by center *name* in ascending text order, not
by the caller's input order. With input centers named `"B"` then `"A"`, the
`"A"` group is returned first. -/
theorem C7_counterexample :
    ((searchPropertiesNearMultiple
        ⟨[⟨1, "PB", "SB", 10000, 0, none, none⟩, ⟨2, "PA", "SA", 0, 0, none, none⟩], [], []⟩
        [⟨10000, 0, "B", some 500⟩, ⟨0, 0, "A", some 500⟩] {}).results.map
      (fun r => r.searchCenter)) = ["A", "B"] ∧
    (([⟨10000, 0, "B", some 500⟩, ⟨0, 0, "A", some 500⟩] : List SearchCenter).map
      (fun c => c.name)) = ["B", "A"] ∧
    (["A", "B"] : List String) ≠ ["B", "A"] := by
  refine ⟨?_, by decide, by decide⟩
  with_unfolding_all decide

/-- C7 (amended): the multi-center output is grouped by search-center name in
ascending (BINARY-collation) order — not caller input order — and within each
group results appear in ascending distance to that center. -/
theorem C7_group_order (db : Database) (centers : List SearchCenter)
    (o : PropertySearchOptions) :
    List.Pairwise (fun a b : MultiSearchResult =>
        a.searchCenter < b.searchCenter ∨
        (a.searchCenter = b.searchCenter ∧ a.distanceSqToCenter ≤ b.distanceSqToCenter))
      (searchPropertiesNearMultiple db centers o).results := by
  simp only [searchPropertiesNearMultiple]
  refine List.Pairwise.map _ (fun a b h => ?_)
    (((List.sorted_insertionSort centerRowLe _).sublist
      ((List.take_sublist _ _).trans (List.take_sublist _ _))))
  exact h

/-! ## Multi-center assignment lemmas (claim C2) -/

/-- Membership in a center's disk: the exact-radius test of that center's
`UNION ALL` branch. -/
def inDisk (p : PropertyRow) (c : SearchCenter) : Bool :=
  sqrtLe (distSq p.x p.y c.x c.y) (effectiveRadius c)

/-- A point inside the disk is inside the branch's bounding box (the box has
half-width equal to the radius). -/
theorem inDisk_bounds {p : PropertyRow} {c : SearchCenter} (h : inDisk p c = true) :
    ((createSearchBounds ⟨c.x, c.y⟩ (effectiveRadius c)).minX ≤ p.x ∧
      p.x ≤ (createSearchBounds ⟨c.x, c.y⟩ (effectiveRadius c)).maxX) ∧
    ((createSearchBounds ⟨c.x, c.y⟩ (effectiveRadius c)).minY ≤ p.y ∧
      p.y ≤ (createSearchBounds ⟨c.x, c.y⟩ (effectiveRadius c)).maxY) := by
  rw [inDisk, sqrtLe, Bool.and_eq_true, decide_eq_true_eq, decide_eq_true_eq] at h
  obtain ⟨hr, hd⟩ := h
  rw [distSq] at hd
  rw [createSearchBounds]
  dsimp only
  set r := effectiveRadius c
  constructor
  · constructor
    · nlinarith [sq_nonneg (p.y - c.y), sq_nonneg (p.x - c.x + r)]
    · nlinarith [sq_nonneg (p.y - c.y), sq_nonneg (p.x - c.x - r)]
  · constructor
    · nlinarith [sq_nonneg (p.x - c.x), sq_nonneg (p.y - c.y + r)]
    · nlinarith [sq_nonneg (p.x - c.x), sq_nonneg (p.y - c.y - r)]

/-- Forward direction of membership in one `UNION ALL` branch. -/
theorem of_mem_centerBlock {db : Database} {i : ℕ} {c : SearchCenter} {row : CenterRow}
    (h : row ∈ centerBlock db i c) :
    row.centerIdx = i ∧ row.search_center = c.name ∧ row.row ∈ db.properties ∧
    inDisk row.row c = true ∧
    row.distanceSqToCenter = distSq row.row.x row.row.y c.x c.y := by
  rw [centerBlock] at h
  rw [mem_sqlDistinct] at h
  simp only [List.mem_map, List.mem_filter] at h
  obtain ⟨p, ⟨hp, hw⟩, rfl⟩ := h
  simp only [Bool.and_eq_true] at hw
  exact ⟨rfl, rfl, hp, hw.2, rfl⟩

/-- Backward direction: a stored property inside a center's disk produces a
row in that center's branch. -/
theorem mem_centerBlock_of_inDisk {db : Database} {i : ℕ} {c : SearchCenter}
    {p : PropertyRow} (hp : p ∈ db.properties) (hd : inDisk p c = true) :
    (⟨p, c.name, i, distSq p.x p.y c.x c.y⟩ : CenterRow) ∈ centerBlock db i c := by
  rw [centerBlock, mem_sqlDistinct]
  simp only [List.mem_map, List.mem_filter]
  refine ⟨p, ⟨hp, ?_⟩, rfl⟩
  obtain ⟨⟨h1, h2⟩, h3, h4⟩ := inDisk_bounds hd
  rw [inDisk] at hd
  simp only [Bool.and_eq_true, decide_eq_true_eq]
  exact ⟨⟨⟨⟨h1, h2⟩, h3⟩, h4⟩, hd⟩

/-- Forward direction of membership in the `UNION ALL`. -/
theorem of_mem_multiCenterResults {db : Database} {row : CenterRow} :
    ∀ {i : ℕ} {cs : List SearchCenter}, row ∈ multiCenterResults db i cs →
    ∃ j c, cs.get? j = some c ∧ row.centerIdx = i + j ∧ row.search_center = c.name ∧
      row.row ∈ db.properties ∧ inDisk row.row c = true ∧
      row.distanceSqToCenter = distSq row.row.x row.row.y c.x c.y := by
  intro i cs
  induction cs generalizing i with
  | nil => intro h; simp [multiCenterResults] at h
  | cons c cs ih =>
    intro h
    rw [multiCenterResults, List.mem_append] at h
    rcases h with h | h
    · obtain ⟨h1, h2, h3, h4, h5⟩ := of_mem_centerBlock h
      exact ⟨0, c, rfl, by omega, h2, h3, h4, h5⟩
    · obtain ⟨j, c', hj, hidx, hrest⟩ := ih h
      exact ⟨j + 1, c', by simpa using hj, by omega, hrest⟩

/-- Backward direction: each center whose disk contains a stored property
contributes a row for it, at that center's input position. -/
theorem mem_multiCenterResults_of_inDisk {db : Database} {p : PropertyRow} :
    ∀ {i j : ℕ} {cs : List SearchCenter} {c : SearchCenter},
      cs.get? j = some c → p ∈ db.properties → inDisk p c = true →
      (⟨p, c.name, i + j, distSq p.x p.y c.x c.y⟩ : CenterRow) ∈ multiCenterResults db i cs := by
  intro i j cs
  induction cs generalizing i j with
  | nil => intro c hj; simp at hj
  | cons c₀ cs ih =>
    intro c hj hp hd
    rw [multiCenterResults, List.mem_append]
    match j, hj with
    | 0, hj =>
      left
      have : c = c₀ := by simpa using hj.symm
      subst this
      simpa using mem_centerBlock_of_inDisk hp hd
    | j' + 1, hj =>
      right
      have := ih (i := i + 1) (j := j') (by simpa using hj) hp hd
      simpa [show i + 1 + j' = i + (j' + 1) by omega] using this

/-- Every row of the `UNION ALL` carries a center index at least the starting
index. -/
theorem centerIdx_ge_of_mem {db : Database} {row : CenterRow} :
    ∀ {i : ℕ} {cs : List SearchCenter}, row ∈ multiCenterResults db i cs →
      i ≤ row.centerIdx := by
  intro i cs h
  obtain ⟨j, c, _, hidx, _⟩ := of_mem_multiCenterResults h
  omega

/-- Rows of the `UNION ALL` appear in nondecreasing center-index order:
branches are concatenated in caller order. -/
theorem pairwise_centerIdx {db : Database} :
    ∀ {i : ℕ} {cs : List SearchCenter},
      List.Pairwise (fun a b : CenterRow => a.centerIdx ≤ b.centerIdx)
        (multiCenterResults db i cs) := by
  intro i cs
  induction cs generalizing i with
  | nil => simp [multiCenterResults]
  | cons c cs ih =>
    rw [multiCenterResults, List.pairwise_append]
    refine ⟨?_, ih, ?_⟩
    · refine List.pairwise_of_forall_mem_list (fun a ha b hb => ?_)
      rw [(of_mem_centerBlock ha).1, (of_mem_centerBlock hb).1]
    · intro a ha b hb
      rw [(of_mem_centerBlock ha).1]
      exact le_trans (by omega) (centerIdx_ge_of_mem hb)

theorem bestOf_cons (h r : CenterRow) (t : List CenterRow) :
    bestOf h (r :: t) =
      bestOf (if r.distanceSqToCenter < h.distanceSqToCenter then r else h) t := rfl

theorem bestOf_mem : ∀ (t : List CenterRow) (h : CenterRow), bestOf h t ∈ h :: t := by
  intro t
  induction t with
  | nil => intro h; simp [bestOf]
  | cons r t ih =>
    intro h
    rw [bestOf_cons]
    by_cases hc : r.distanceSqToCenter < h.distanceSqToCenter
    · rw [if_pos hc]
      rcases List.mem_cons.mp (ih r) with h' | h'
      · rw [h']
        exact List.mem_cons_of_mem _ (List.mem_cons_self _ _)
      · exact List.mem_cons_of_mem _ (List.mem_cons_of_mem _ h')
    · rw [if_neg hc]
      rcases List.mem_cons.mp (ih h) with h' | h'
      · rw [h']
        exact List.mem_cons_self _ _
      · exact List.mem_cons_of_mem _ (List.mem_cons_of_mem _ h')

theorem bestOf_le_head : ∀ (t : List CenterRow) (h : CenterRow),
    (bestOf h t).distanceSqToCenter ≤ h.distanceSqToCenter := by
  intro t
  induction t with
  | nil => intro h; exact le_rfl
  | cons r t ih =>
    intro h
    rw [bestOf_cons]
    by_cases hc : r.distanceSqToCenter < h.distanceSqToCenter
    · rw [if_pos hc]
      exact le_trans (ih r) (le_of_lt hc)
    · rw [if_neg hc]
      exact ih h

theorem bestOf_min : ∀ (t : List CenterRow) (h : CenterRow), ∀ x ∈ h :: t,
    (bestOf h t).distanceSqToCenter ≤ x.distanceSqToCenter := by
  intro t
  induction t with
  | nil =>
    intro h x hx
    rcases List.mem_cons.mp hx with rfl | hx
    · exact le_rfl
    · simp at hx
  | cons r t ih =>
    intro h x hx
    rw [bestOf_cons]
    rcases List.mem_cons.mp hx with rfl | hx
    · by_cases hc : r.distanceSqToCenter < x.distanceSqToCenter
      · rw [if_pos hc]
        exact le_trans (bestOf_le_head t r) (le_of_lt hc)
      · rw [if_neg hc]
        exact bestOf_le_head t x
    · rcases List.mem_cons.mp hx with rfl | hx
      · by_cases hc : x.distanceSqToCenter < h.distanceSqToCenter
        · rw [if_pos hc]
          exact bestOf_le_head t x
        · rw [if_neg hc]
          exact le_trans (bestOf_le_head t h) (not_lt.mp hc)
      · by_cases hc : r.distanceSqToCenter < h.distanceSqToCenter
        · rw [if_pos hc]
          exact ih r x (List.mem_cons_of_mem _ hx)
        · rw [if_neg hc]
          exact ih h x (List.mem_cons_of_mem _ hx)

theorem bestOf_eq_or_lt : ∀ (t : List CenterRow) (h : CenterRow),
    bestOf h t = h ∨ (bestOf h t).distanceSqToCenter < h.distanceSqToCenter := by
  intro t
  induction t with
  | nil => intro h; exact Or.inl rfl
  | cons r t ih =>
    intro h
    rw [bestOf_cons]
    by_cases hc : r.distanceSqToCenter < h.distanceSqToCenter
    · rw [if_pos hc]
      rcases ih r with h' | h'
      · rw [h']
        exact Or.inr hc
      · exact Or.inr (lt_trans h' hc)
    · rw [if_neg hc]
      exact ih h

theorem bestOf_tie_idx : ∀ (t : List CenterRow) (h : CenterRow),
    List.Pairwise (fun a b : CenterRow => a.centerIdx ≤ b.centerIdx) (h :: t) →
    ∀ x ∈ h :: t, x.distanceSqToCenter = (bestOf h t).distanceSqToCenter →
    (bestOf h t).centerIdx ≤ x.centerIdx := by
  intro t
  induction t with
  | nil =>
    intro h _ x hx _
    rcases List.mem_cons.mp hx with rfl | hx
    · exact le_rfl
    · simp at hx
  | cons r t ih =>
    intro h hpw x hx htie
    rw [bestOf_cons] at htie ⊢
    by_cases hc : r.distanceSqToCenter < h.distanceSqToCenter
    · rw [if_pos hc] at htie ⊢
      have hpw' : List.Pairwise (fun a b : CenterRow => a.centerIdx ≤ b.centerIdx) (r :: t) :=
        List.Pairwise.sublist (by simp) hpw
      rcases List.mem_cons.mp hx with hEq | hx2
      · exfalso
        have h1 : (bestOf r t).distanceSqToCenter ≤ r.distanceSqToCenter := bestOf_le_head t r
        have h2 : x.distanceSqToCenter ≤ r.distanceSqToCenter := by
          rw [htie]; exact h1
        rw [hEq] at h2
        exact absurd hc (not_lt.mpr h2)
      · exact ih r hpw' x hx2 htie
    · rw [if_neg hc] at htie ⊢
      have hpw' : List.Pairwise (fun a b : CenterRow => a.centerIdx ≤ b.centerIdx) (h :: t) :=
        List.Pairwise.sublist
          (List.cons_sublist_cons.mpr (List.sublist_cons_self r t)) hpw
      rcases List.mem_cons.mp hx with hEq | hx2
      · rw [hEq] at htie ⊢
        exact ih h hpw' h (List.mem_cons_self _ _) htie
      · rcases List.mem_cons.mp hx2 with hEq | hx3
        · rcases bestOf_eq_or_lt t h with heq | hlt
          · rw [heq]
            rw [hEq]
            exact (List.pairwise_cons.mp hpw).1 r (List.mem_cons_self _ _)
          · exfalso
            have hhr : h.distanceSqToCenter ≤ x.distanceSqToCenter := by
              rw [hEq]; exact not_lt.mp hc
            rw [htie] at hhr
            exact absurd (lt_of_le_of_lt hhr hlt) (lt_irrefl _)
        · exact ih h hpw' x (List.mem_cons_of_mem _ hx3) htie

/-- What `WHERE closest_rank = 1` guarantees for each surviving row: it is one
of the union's rows, minimal in distance among all rows of its property, and
on exact distance ties it carries the smallest center index (the earliest
center in caller order). -/
theorem closestAssignment_spec {rows : List CenterRow} {r : CenterRow}
    (hr : r ∈ closestAssignment rows) :
    r ∈ rows ∧
    (∀ x ∈ rows, x.row.id = r.row.id →
      r.distanceSqToCenter ≤ x.distanceSqToCenter) ∧
    (List.Pairwise (fun a b : CenterRow => a.centerIdx ≤ b.centerIdx) rows →
      ∀ x ∈ rows, x.row.id = r.row.id →
        x.distanceSqToCenter = r.distanceSqToCenter → r.centerIdx ≤ x.centerIdx) := by
  rw [closestAssignment] at hr
  simp only [List.mem_filterMap] at hr
  obtain ⟨i, _, hf⟩ := hr
  revert hf
  cases hfl : rows.filter (fun x => x.row.id = i) with
  | nil => intro hf; simp at hf
  | cons h t =>
    intro hf
    simp only [Option.some_inj] at hf
    subst hf
    have hmem : bestOf h t ∈ rows.filter (fun x => x.row.id = i) := hfl ▸ bestOf_mem t h
    have hmem' := List.mem_filter.mp hmem
    have hid : (bestOf h t).row.id = i := by simpa using hmem'.2
    refine ⟨hmem'.1, ?_, ?_⟩
    · intro x hx hxid
      have hxf : x ∈ rows.filter (fun y => y.row.id = i) :=
        List.mem_filter.mpr ⟨hx, by simp [hxid, hid]⟩
      rw [hfl] at hxf
      exact bestOf_min t h x hxf
    · intro hpw x hx hxid htie
      have hxf : x ∈ rows.filter (fun y => y.row.id = i) :=
        List.mem_filter.mpr ⟨hx, by simp [hxid, hid]⟩
      rw [hfl] at hxf
      have hpw' : List.Pairwise (fun a b : CenterRow => a.centerIdx ≤ b.centerIdx) (h :: t) := by
        rw [← hfl]
        exact List.Pairwise.sublist (List.filter_sublist _) hpw
      exact bestOf_tie_idx t h hpw' x hxf htie

/-- The surviving rows of `closestAssignment` have pairwise-distinct property
ids: no property appears under two centers. -/
theorem closestAssignment_nodup_ids (rows : List CenterRow) :
    ((closestAssignment rows).map (fun r => r.row.id)).Nodup := by
  rw [closestAssignment]
  have hks : (sqlDistinct (rows.map (fun r => r.row.id))).Nodup := nodup_sqlDistinct
  generalize sqlDistinct (rows.map (fun r => r.row.id)) = ks at hks
  induction ks with
  | nil => simp
  | cons i ks ih =>
    rw [List.filterMap_cons]
    have hkey : ∀ (j : ℕ) (r : CenterRow),
        (match rows.filter (fun x => x.row.id = j) with
          | [] => none
          | h :: t => some (bestOf h t)) = some r → r.row.id = j := by
      intro j r hf
      revert hf
      cases hfl : rows.filter (fun x => x.row.id = j) with
      | nil => intro hf; simp at hf
      | cons h t =>
        intro hf
        simp only [Option.some_inj] at hf
        have hmem : bestOf h t ∈ rows.filter (fun x => x.row.id = j) := hfl ▸ bestOf_mem t h
        have := (List.mem_filter.mp hmem).2
        simp only [decide_eq_true_eq] at this
        rw [hf] at this
        exact this
    cases hfi : (match rows.filter (fun x => x.row.id = i) with
          | [] => none
          | h :: t => some (bestOf h t)) with
    | none => exact ih (List.nodup_cons.mp hks).2
    | some r =>
      rw [List.map_cons, List.nodup_cons]
      refine ⟨?_, ih (List.nodup_cons.mp hks).2⟩
      intro hmem
      simp only [List.mem_map, List.mem_filterMap] at hmem
      obtain ⟨r', ⟨j, hj, hfj⟩, hid⟩ := hmem
      have h1 : r'.row.id = j := hkey j r' hfj
      have h2 : r.row.id = i := hkey i r hfi
      rw [h1, h2] at hid
      exact (List.nodup_cons.mp hks).1 (hid ▸ hj)

/-- Decomposition of a multi-center result into its surviving CTE row. -/
theorem mem_multiResults {db : Database} {centers : List SearchCenter}
    {o : PropertySearchOptions} {r : MultiSearchResult}
    (hr : r ∈ (searchPropertiesNearMultiple db centers o).results) :
    ∃ cr, cr ∈ closestAssignment (multiCenterResults db 0 centers) ∧
      multiPostWhere db o cr = true ∧
      r.base.property = cr.row ∧ r.searchCenter = cr.search_center ∧
      r.centerIdx = cr.centerIdx ∧ r.distanceSqToCenter = cr.distanceSqToCenter := by
  rw [searchPropertiesNearMultiple] at hr
  simp only [List.mem_map] at hr
  obtain ⟨cr, hmem, rfl⟩ := hr
  have hmem' : cr ∈ multiRowsSorted db centers o :=
    List.mem_of_mem_take (List.mem_of_mem_take hmem)
  rw [multiRowsSorted, (List.perm_insertionSort centerRowLe _).mem_iff, List.mem_filter] at hmem'
  exact ⟨cr, hmem'.1, hmem'.2, rfl, rfl, rfl, rfl⟩

/-- C2: in `searchPropertiesNearMultiple` no property appears in two centers'
groups (result property ids are pairwise distinct), and every returned entry
is assigned to a center whose disk contains it at the recorded distance, such
that no other center's disk containing it is strictly closer, and any other
center at exactly the same distance appears no earlier in the caller's input
list. -/
theorem C2_nearest_assignment (db : Database) (centers : List SearchCenter)
    (o : PropertySearchOptions) :
    ((searchPropertiesNearMultiple db centers o).results.map
      (fun r => r.base.property.id)).Nodup ∧
    ∀ r ∈ (searchPropertiesNearMultiple db centers o).results,
      r.centerIdx < centers.length ∧
      (∀ c, centers.get? r.centerIdx = some c →
        r.searchCenter = c.name ∧ inDisk r.base.property c = true ∧
        r.distanceSqToCenter = distSq r.base.property.x r.base.property.y c.x c.y) ∧
      (∀ j c', centers.get? j = some c' → inDisk r.base.property c' = true →
        r.distanceSqToCenter < distSq r.base.property.x r.base.property.y c'.x c'.y ∨
        (r.distanceSqToCenter = distSq r.base.property.x r.base.property.y c'.x c'.y ∧
          r.centerIdx ≤ j)) := by
  constructor
  · rw [searchPropertiesNearMultiple]
    simp only [List.map_map]
    have h0 := closestAssignment_nodup_ids (multiCenterResults db 0 centers)
    have h1 : ((closestAssignment (multiCenterResults db 0 centers)).filter
        (multiPostWhere db o) |>.map (fun r => r.row.id)).Nodup :=
      h0.sublist (List.Sublist.map _ (List.filter_sublist _))
    have h2 : ((multiRowsSorted db centers o).map (fun r => r.row.id)).Nodup := by
      rw [multiRowsSorted]
      exact ((List.perm_insertionSort centerRowLe _).map _).nodup_iff.mpr h1
    exact h2.sublist (List.Sublist.map _ ((List.take_sublist _ _).trans (List.take_sublist _ _)))
  · intro r hr
    obtain ⟨cr, hca, _, hprop, hname, hidx, hdist⟩ := mem_multiResults hr
    obtain ⟨hmem, hmin, htie⟩ := closestAssignment_spec hca
    obtain ⟨j₀, c₀, hj₀, hidx₀, hname₀, hpdb, hdisk₀, hdsq₀⟩ := of_mem_multiCenterResults hmem
    have hidx₀' : cr.centerIdx = j₀ := by omega
    refine ⟨?_, ?_, ?_⟩
    · rw [hidx, hidx₀']
      rcases List.get?_eq_some.mp hj₀ with ⟨hlt, _⟩
      exact hlt
    · intro c hc
      rw [hidx, hidx₀', hj₀] at hc
      obtain rfl : c₀ = c := by simpa using hc
      rw [hname, hdist, hprop]
      exact ⟨hname₀, hdisk₀, hdsq₀⟩
    · intro j c' hj hd
      rw [hprop] at hd
      have hrow' := mem_multiCenterResults_of_inDisk (i := 0) hj hpdb hd
      have hle := hmin _ hrow' rfl
      dsimp only at hle
      rcases eq_or_lt_of_le hle with heq | hlt
      · right
        refine ⟨by rw [hdist, hprop]; exact heq, ?_⟩
        have := htie pairwise_centerIdx _ hrow' rfl heq.symm
        dsimp only at this
        rw [hidx]
        omega
      · left
        rw [hdist, hprop]
        exact hlt

/-- Concrete database for the C2 witness: one property at the origin. -/
def C2db : Database := ⟨[⟨1, "P", "S", 0, 0, none, none⟩], [], []⟩

/-- Two centers whose disks both contain the property; the second (input
position 1) is closer. -/
def C2centers : List SearchCenter := [⟨5, 0, "X", some 100⟩, ⟨3, 0, "Y", some 100⟩]

/-- The single result: assigned to the closer center `"Y"` at squared
distance 9. -/
def C2res : MultiSearchResult :=
  { base := enrichPropertyData C2db ⟨⟨1, "P", "S", 0, 0, none, none⟩, 9⟩
    searchCenter := "Y"
    centerIdx := 1
    distanceSqToCenter := 9 }

/-- C2 witness: on the concrete two-center fixture the returned ids are
duplicate-free and the returned entry beats center `"X"` (input position 0)
strictly on distance. -/
theorem C2_witness :
    ((searchPropertiesNearMultiple C2db C2centers {}).results.map
      (fun r => r.base.property.id)).Nodup ∧
    (C2res.distanceSqToCenter <
        distSq C2res.base.property.x C2res.base.property.y 5 0 ∨
      (C2res.distanceSqToCenter =
          distSq C2res.base.property.x C2res.base.property.y 5 0 ∧
        C2res.centerIdx ≤ 0)) := by
  refine ⟨(C2_nearest_assignment C2db C2centers {}).1, ?_⟩
  exact ((C2_nearest_assignment C2db C2centers {}).2 C2res
    (by with_unfolding_all decide)).2.2 0 ⟨5, 0, "X", some 100⟩ (by decide)
    (by with_unfolding_all decide)

/-! ## Outlier exclusion in the price trend (claim C6) -/

/-- The `forEach` body is the identity on out-of-band records. -/
theorem trendStep_skip {t : TransactionRow} (h : bandOK t = false)
    (m : List (Option String × QuarterAccum)) : trendStep m t = m := by
  rw [trendStep]
  rw [bandOK] at h
  simp only [Bool.not_eq_false', Bool.or_eq_true, decide_eq_true_eq] at h
  rw [if_pos h]

/-- Folding the quarter map over a list ignores the out-of-band records. -/
theorem foldl_trendStep_filter :
    ∀ (l : List TransactionRow) (m : List (Option String × QuarterAccum)),
      l.foldl trendStep m = (l.filter bandOK).foldl trendStep m := by
  intro l
  induction l with
  | nil => intro m; rfl
  | cons t l ih =>
    intro m
    rw [List.foldl_cons, List.filter_cons]
    cases hb : bandOK t with
    | true => rw [if_pos rfl, List.foldl_cons, ih]
    | false =>
      simp only [Bool.false_eq_true, if_false]
      rw [trendStep_skip hb, ih]

/-- The quarterly price trend is unchanged when the valid-but-out-of-band
records are removed from the input: outliers contribute nothing. -/
theorem calculatePriceTrends_keep (ts : List TransactionRow) :
    calculatePriceTrends ts = calculatePriceTrends (ts.filter keepTx) := by
  have hfilter : (ts.filter keepTx).filter validTx = (ts.filter validTx).filter bandOK := by
    rw [List.filter_filter, List.filter_filter]
    apply List.filter_congr
    intro t _
    cases hv : validTx t <;> cases hb : bandOK t <;> simp [keepTx, hv, hb]
  rw [calculatePriceTrends, calculatePriceTrends]
  by_cases hts : ts.isEmpty
  · rw [if_pos hts]
    rw [List.isEmpty_iff] at hts
    subst hts
    simp
  · rw [if_neg hts]
    by_cases hts' : (ts.filter keepTx).isEmpty
    · rw [if_pos hts']
      rw [List.isEmpty_iff] at hts'
      have hA' : (ts.filter validTx).filter bandOK = [] := by
        rw [← hfilter, hts', List.filter_nil]
      by_cases hA : (ts.filter validTx).isEmpty
      · rw [if_pos hA]
      · rw [if_neg hA]
        rw [foldl_trendStep_filter, hA']
        simp [jsSliceLast]
    · rw [if_neg hts']
      by_cases hA : (ts.filter validTx).isEmpty
      · rw [if_pos hA]
        have hA2 : ((ts.filter keepTx).filter validTx).isEmpty := by
          rw [hfilter]
          rw [List.isEmpty_iff] at hA ⊢
          rw [hA, List.filter_nil]
        rw [if_pos hA2]
      · rw [if_neg hA]
        by_cases hA2 : ((ts.filter keepTx).filter validTx).isEmpty
        · rw [if_pos hA2]
          rw [List.isEmpty_iff, hfilter] at hA2
          rw [foldl_trendStep_filter, hA2]
          simp [jsSliceLast]
        · rw [if_neg hA2]
          rw [foldl_trendStep_filter, foldl_trendStep_filter ((ts.filter keepTx).filter validTx),
            hfilter, List.filter_filter, List.filter_filter]
          have : ∀ a ∈ ts, (bandOK a && (bandOK a && validTx a)) = (bandOK a && validTx a) := by
            intro a _
            cases bandOK a <;> cases validTx a <;> rfl
          rw [List.filter_congr this]

/-- C6: the trend returned by `enrichPropertyData` is computed from exactly
the raw recent-transaction list it also returns (so excluded records stay in
that list untouched, and no error is raised — the enrichment is a total
function); the trend ignores every valid record whose unit price lies outside
the `$200`–`$10000` band, and removing such an out-of-band record from any
input list leaves the trend unchanged. -/
theorem C6_outlier_handling :
    (∀ (db : Database) (hit : PropertyHit),
      (enrichPropertyData db hit).recentTransactions = recentTransactionsOf db hit.row.id ∧
      (enrichPropertyData db hit).pricePerSqfTrend =
        calculatePriceTrends ((enrichPropertyData db hit).recentTransactions)) ∧
    (∀ ts : List TransactionRow,
      calculatePriceTrends ts = calculatePriceTrends (ts.filter keepTx)) ∧
    (∀ (ts : List TransactionRow) (t : TransactionRow), t ∈ ts →
      0 < t.price → 0 < t.area → (pricePerSqf t < 200 ∨ pricePerSqf t > 10000) →
      calculatePriceTrends ts = calculatePriceTrends (ts.filter (fun u => u ≠ t))) := by
  refine ⟨fun db hit => ⟨rfl, rfl⟩, calculatePriceTrends_keep, ?_⟩
  intro ts t _ hp ha hband
  have hkt : keepTx t = false := by
    simp only [keepTx, validTx, bandOK, Bool.or_eq_false_iff, Bool.not_eq_true',
      Bool.not_eq_false']
    constructor
    · simp only [Bool.and_eq_true, decide_eq_true_eq]
      exact ⟨hp, ha⟩
    · simp only [Bool.or_eq_true, decide_eq_true_eq]
      exact hband
  rw [calculatePriceTrends_keep ts, calculatePriceTrends_keep (ts.filter (fun u => u ≠ t))]
  congr 1
  rw [List.filter_filter]
  apply List.filter_congr
  intro u _
  by_cases hu : u = t
  · subst hu
    simp [hkt]
  · simp [hu]

/-- C6 witness: a transaction of price 100 over 10 sqm (unit price ≈ $0.93
per sqf, far below the band) leaves the trend unchanged when removed, and the
enrichment returns the raw fetched transaction list. -/
theorem C6_witness :
    calculatePriceTrends [⟨1, 100, 10, "0125", "Apartment", none, none⟩] =
      calculatePriceTrends
        ([⟨1, 100, 10, "0125", "Apartment", none, none⟩].filter
          (fun u => u ≠ ⟨1, 100, 10, "0125", "Apartment", none, none⟩)) ∧
    (enrichPropertyData ⟨[], [], []⟩ ⟨⟨1, "P", "S", 0, 0, none, none⟩, 0⟩).recentTransactions =
      recentTransactionsOf ⟨[], [], []⟩ 1 := by
  constructor
  · exact C6_outlier_handling.2.2 [⟨1, 100, 10, "0125", "Apartment", none, none⟩]
      ⟨1, 100, 10, "0125", "Apartment", none, none⟩ (by decide) (by decide)
      (by with_unfolding_all decide)
      (Or.inl (by with_unfolding_all decide))
  · exact (C6_outlier_handling.1 ⟨[], [], []⟩ ⟨⟨1, "P", "S", 0, 0, none, none⟩, 0⟩).1

/-! ## Batch router (oneMapClient.ts lines 195-306, claim C4)

The external HTTP call is abstracted as an oracle `call : ℕ → …` giving the
outcome of each numbered attempt for one destination (the origin, transport
mode and options are fixed by the caller and closed over by the oracle). -/

/-- Routing collaborator payload (contents are never inspected by the batch
logic). -/
structure RouteResponse where
  totalTimeSeconds : ℚ
  walkTimeSeconds : Option ℚ := none
  transitTimeSeconds : Option ℚ := none
  transfers : Option ℕ := none
deriving DecidableEq, Repr

structure Destination where
  lat : ℚ
  lon : ℚ
  name : String
deriving DecidableEq, Repr

/-- One entry of the batch result array:
`{ destination, result: … | null, error?: string }`. -/
structure RouteOutcome where
  destination : String
  result : Option RouteResponse
  error : Option String
deriving DecidableEq, Repr

/-- `pat` occurs at the start of `s`. -/
def charsStartWith : List Char → List Char → Bool
  | [], _ => true
  | _ :: _, [] => false
  | p :: ps, c :: cs => p = c && charsStartWith ps cs

/-- `String.prototype.includes`: `pat` occurs somewhere in `s`. -/
def strIncludes (s pat : String) : Bool :=
  go pat.toList s.toList
where
  go (pat : List Char) : List Char → Bool
    | [] => pat.isEmpty
    | c :: cs => charsStartWith pat (c :: cs) || go pat cs

/-- Retry only on rate-limit (429) and server (5xx) errors. -/
def isRetryable (errorMessage : String) : Bool :=
  strIncludes errorMessage "(429)" || strIncludes errorMessage "(500)"
  || strIncludes errorMessage "(502)" || strIncludes errorMessage "(503)"
  || strIncludes errorMessage "Too Many Requests"

/-- The `for (attempt = 1; attempt <= maxRetries; …)` loop; `fuel` is the
number of remaining iterations including the current one, so
`attempt = maxRetries` exactly when `fuel = 1`. A zero-trip loop throws the
fallback error. -/
def retryLoop (call : ℕ → Except String RouteResponse) :
    ℕ → ℕ → Except String RouteResponse
  | 0, _ => .error "Route calculation failed after retries"
  | fuel + 1, attempt =>
    match call attempt with
    | .ok r => .ok r
    | .error e =>
      if isRetryable e && decide (fuel ≠ 0) then retryLoop call fuel (attempt + 1)
      else .error e

/-- `calculateRouteWithRetry` (lines 195-230). -/
def calculateRouteWithRetry (call : ℕ → Except String RouteResponse)
    (maxRetries : ℕ) : Except String RouteResponse :=
  retryLoop call maxRetries 1

/-- The `try`/`catch` body wrapping one destination's retried call: a success
record, or a failure record carrying that destination's error message. -/
def outcomeFor (call : Destination → ℕ → Except String RouteResponse)
    (dest : Destination) : RouteOutcome :=
  match calculateRouteWithRetry (call dest) 2 with
  | .ok r => ⟨dest.name, some r, none⟩
  | .error e => ⟨dest.name, none, some e⟩

/-- The batch loop of `batchCalculateRoutes` (lines 247-298): fixed batches of
3, per-batch error rate, consecutive-error counter. The adaptive inter-batch
sleep (`min(10000, 2000·(1+errorRate·2)·(1+consecutiveErrors·0.5))`) only
spends time and is unobservable in the returned array. -/
def batchLoop (call : Destination → ℕ → Except String RouteResponse) :
    List Destination → ℤ → List RouteOutcome
  | [], _ => []
  | d :: tl, consecutiveErrors =>
    let batch := (d :: tl).take 3
    let batchResults := batch.map (outcomeFor call)
    let errors := (batchResults.filter (fun r => truthyStr r.error)).length
    let errorRate : ℚ := (errors : ℚ) / (batch.length : ℚ)
    let consecutiveErrors' :=
      if errorRate > 1/2 then consecutiveErrors + 1 else max 0 (consecutiveErrors - 1)
    batchResults ++ batchLoop call ((d :: tl).drop 3) consecutiveErrors'
termination_by ds _ => ds.length
decreasing_by
  simp only [List.length_drop, List.length_cons]
  omega

def batchCalculateRoutes (call : Destination → ℕ → Except String RouteResponse)
    (destinations : List Destination) : List RouteOutcome :=
  batchLoop call destinations 0

theorem outcomeFor_destination (call : Destination → ℕ → Except String RouteResponse)
    (d : Destination) : (outcomeFor call d).destination = d.name := by
  rw [outcomeFor]
  cases calculateRouteWithRetry (call d) 2 <;> rfl

/-- The batching, error-rate bookkeeping and delays never change what is
returned: the result list is exactly the per-destination outcome map. -/
theorem batchLoop_eq_map (call : Destination → ℕ → Except String RouteResponse) :
    ∀ (n : ℕ) (ds : List Destination), ds.length ≤ n → ∀ c : ℤ,
      batchLoop call ds c = ds.map (outcomeFor call) := by
  intro n
  induction n with
  | zero =>
    intro ds hds c
    have : ds = [] := List.eq_nil_of_length_eq_zero (Nat.le_zero.mp hds)
    subst this
    simp [batchLoop]
  | succ n ih =>
    intro ds hds c
    cases ds with
    | nil => simp [batchLoop]
    | cons d tl =>
      rw [batchLoop]
      have hlen : ((d :: tl).drop 3).length ≤ n := by
        simp only [List.length_drop, List.length_cons]
        simp only [List.length_cons] at hds
        omega
      rw [ih _ hlen]
      rw [← List.map_append, List.take_append_drop]

/-- C4: `batchCalculateRoutes` returns exactly one outcome per input
destination, in input order — each being either that destination's successful
route or that destination's own classified error — so one failure never
aborts the batch or drops another destination's outcome. -/
theorem C4_per_destination_outcomes (call : Destination → ℕ → Except String RouteResponse)
    (destinations : List Destination) :
    batchCalculateRoutes call destinations = destinations.map (outcomeFor call) ∧
    (batchCalculateRoutes call destinations).map (fun out => out.destination) =
      destinations.map (fun d => d.name) ∧
    (batchCalculateRoutes call destinations).length = destinations.length := by
  have h := batchLoop_eq_map call destinations.length destinations le_rfl 0
  refine ⟨h, ?_, ?_⟩
  · rw [batchCalculateRoutes, h, List.map_map]
    exact List.map_congr_left (fun d _ => outcomeFor_destination call d)
  · rw [batchCalculateRoutes, h, List.length_map]

/-! ## Station deduplication (utils/stationDeduplication.ts, claim C5)

The four regular expressions are embedded as decidable matchers over
character lists; a backtracking pattern like `\s+MRT\s+STATION.*$` matches at
a position iff some split of greedy classes fits, expressed as a bounded
existential over run lengths. `String.prototype.replace` with a non-global
regex removes the leftmost match. -/

/-- Uppercase an ASCII letter (`String.prototype.toUpperCase` on the
alphabets these names use). -/
def toUpperChar (c : Char) : Char :=
  if 'a' ≤ c && c ≤ 'z' then Char.ofNat (c.toNat - 32) else c

def jsToUpper (s : String) : String := ⟨s.toList.map toUpperChar⟩

/-- `[A-Z]` (with the `/i` flag: any ASCII letter). -/
def isAsciiLetter (c : Char) : Bool :=
  ('A' ≤ c && c ≤ 'Z') || ('a' ≤ c && c ≤ 'z')

/-- A run of `n` whitespace characters starting at `i`. -/
def wsRunAt (cs : List Char) (i n : ℕ) : Bool :=
  (List.range n).all (fun k => ((cs.get? (i + k)).elim false isWsChar))

/-- A run of `n` digit characters starting at `i`. -/
def digitsRunAt (cs : List Char) (i n : ℕ) : Bool :=
  (List.range n).all (fun k => ((cs.get? (i + k)).elim false isDigitChar))

/-- The literal `pat` occurs (case-insensitively) at position `i`. -/
def charsAtCI (cs : List Char) (i : ℕ) (pat : List Char) : Bool :=
  (List.range pat.length).all (fun k =>
    match cs.get? (i + k), pat.get? k with
    | some c, some p => toUpperChar c = p
    | _, _ => false)

/-- A single character satisfying `p` at position `i`. -/
def charAt (cs : List Char) (i : ℕ) (p : Char → Bool) : Bool :=
  (cs.get? i).elim false p

/-- `\s+MRT\s+STATION` matches starting at `i` (the trailing `.*$` always
matches). -/
def mrtStationAt (cs : List Char) (i : ℕ) : Bool :=
  (List.range (cs.length + 1)).any (fun a =>
    decide (1 ≤ a) && wsRunAt cs i a && charsAtCI cs (i + a) "MRT".toList &&
    (List.range (cs.length + 1)).any (fun b =>
      decide (1 ≤ b) && wsRunAt cs (i + a + 3) b &&
      charsAtCI cs (i + a + 3 + b) "STATION".toList))

/-- `replace(/\s+MRT\s+STATION.*$/i, '')`: delete from the leftmost match
start to the end. -/
def stripMrtStation (cs : List Char) : List Char :=
  match (List.range (cs.length + 1)).find? (fun i => mrtStationAt cs i) with
  | some i => cs.take i
  | none => cs

/-- `\s+EXIT\s+[A-Z]$` matches starting at `i` and ending at the end. -/
def exitSuffixAt (cs : List Char) (i : ℕ) : Bool :=
  (List.range (cs.length + 1)).any (fun a =>
    decide (1 ≤ a) && wsRunAt cs i a && charsAtCI cs (i + a) "EXIT".toList &&
    (List.range (cs.length + 1)).any (fun b =>
      decide (1 ≤ b) && wsRunAt cs (i + a + 4) b &&
      charAt cs (i + a + 4 + b) isAsciiLetter &&
      decide (i + a + 4 + b + 1 = cs.length)))

def stripExitSuffix (cs : List Char) : List Char :=
  match (List.range (cs.length + 1)).find? (fun i => exitSuffixAt cs i) with
  | some i => cs.take i
  | none => cs

/-- `\s+\([A-Z]{2}\d+\)$` matches starting at `i` and ending at the end. -/
def lineCodeSuffixAt (cs : List Char) (i : ℕ) : Bool :=
  (List.range (cs.length + 1)).any (fun a =>
    decide (1 ≤ a) && wsRunAt cs i a && charAt cs (i + a) (fun c => c = '(') &&
    charAt cs (i + a + 1) isAsciiLetter && charAt cs (i + a + 2) isAsciiLetter &&
    (List.range (cs.length + 1)).any (fun d =>
      decide (1 ≤ d) && digitsRunAt cs (i + a + 3) d &&
      charAt cs (i + a + 3 + d) (fun c => c = ')') &&
      decide (i + a + 3 + d + 1 = cs.length)))

def stripLineCodeSuffix (cs : List Char) : List Char :=
  match (List.range (cs.length + 1)).find? (fun i => lineCodeSuffixAt cs i) with
  | some i => cs.take i
  | none => cs

/-- `String.prototype.trim`. -/
def jsTrim (cs : List Char) : List Char :=
  ((cs.dropWhile isWsChar).reverse.dropWhile isWsChar).reverse

/-- `extractBaseName` (lines 16-22). -/
def extractBaseName (stationName : String) : String :=
  ⟨jsTrim (stripLineCodeSuffix (stripExitSuffix (stripMrtStation stationName.toList)))⟩

/-- `^[A-Z\s-]+MRT\s+STATION$` on the uppercased name. -/
def mainStationPattern (cs : List Char) : Bool :=
  (List.range (cs.length + 1)).any (fun a =>
    decide (1 ≤ a) &&
    (List.range a).all (fun k =>
      charAt cs k (fun c => ('A' ≤ c && c ≤ 'Z') || isWsChar c || c = '-')) &&
    charsAtCI cs a "MRT".toList &&
    (List.range (cs.length + 1)).any (fun b =>
      decide (1 ≤ b) && wsRunAt cs (a + 3) b &&
      charsAtCI cs (a + 3 + b) "STATION".toList &&
      decide (a + 3 + b + 7 = cs.length)))

/-- `\([A-Z]{2}\d+\)$` on the uppercased name. -/
def lineCodeEndPattern (cs : List Char) : Bool :=
  (List.range (cs.length + 1)).any (fun i =>
    charAt cs i (fun c => c = '(') &&
    charAt cs (i + 1) (fun c => 'A' ≤ c && c ≤ 'Z') &&
    charAt cs (i + 2) (fun c => 'A' ≤ c && c ≤ 'Z') &&
    (List.range (cs.length + 1)).any (fun d =>
      decide (1 ≤ d) && digitsRunAt cs (i + 3) d &&
      charAt cs (i + 3 + d) (fun c => c = ')') &&
      decide (i + 3 + d + 1 = cs.length)))

/-- `EXIT\s+X$` on the uppercased name, for a letter class `p`. -/
def exitEndPattern (cs : List Char) (p : Char → Bool) : Bool :=
  (List.range (cs.length + 1)).any (fun i =>
    charsAtCI cs i "EXIT".toList &&
    (List.range (cs.length + 1)).any (fun b =>
      decide (1 ≤ b) && wsRunAt cs (i + 4) b &&
      charAt cs (i + 4 + b) p &&
      decide (i + 4 + b + 1 = cs.length)))

/-- `getStationPriority` (lines 28-53). -/
def getStationPriority (stationName : String) : ℕ :=
  let upperName := (jsToUpper stationName).toList
  if mainStationPattern upperName then 1
  else if lineCodeEndPattern upperName then 2
  else if exitEndPattern upperName (fun c => c = 'A') then 3
  else if exitEndPattern upperName (fun c => 'B' ≤ c && c ≤ 'Z') then 4
  else 5

/-- A raw station record with its annotated distance; only the fields the
deduplicator reads are modelled. -/
structure MRTStationDist where
  name : String
  building : String
  x : ℚ
  y : ℚ
  distance : ℚ
deriving DecidableEq, Repr

structure StationGroup where
  baseName : String
  stations : List MRTStationDist
  bestRepresentative : MRTStationDist
deriving DecidableEq, Repr

/-- Per-entry update of the group map for one incoming station: the matching
group appends the station and may switch its representative (strictly higher
priority, or equal priority and strictly smaller distance); other groups are
untouched. -/
def updateGroupEntry (station : MRTStationDist) (baseName : String)
    (e : String × StationGroup) : String × StationGroup :=
  if e.1 = baseName then
    let g := e.2
    let g := { g with stations := g.stations ++ [station] }
    let currentPriority := getStationPriority g.bestRepresentative.name
    let newPriority := getStationPriority station.name
    if newPriority < currentPriority then
      (e.1, { g with bestRepresentative := station })
    else if newPriority = currentPriority ∧
        station.distance < g.bestRepresentative.distance then
      (e.1, { g with bestRepresentative := station })
    else (e.1, g)
  else e

/-- The loop body of `deduplicateStations` over the insertion-ordered `Map`:
fresh base names append a new group; existing groups are updated in place. -/
def dedupStep (groups : List (String × StationGroup)) (station : MRTStationDist) :
    List (String × StationGroup) :=
  let baseName := extractBaseName station.name
  if groups.any (fun e => e.1 = baseName) then
    groups.map (updateGroupEntry station baseName)
  else groups ++ [(baseName, ⟨baseName, [station], station⟩)]

/-- `sort((a, b) => a.distance - b.distance)` stable "may precede" relation. -/
def stationDistLe (a b : MRTStationDist) : Prop := a.distance ≤ b.distance

instance : DecidableRel stationDistLe := fun a b => inferInstanceAs (Decidable (_ ≤ _))

instance : IsTotal MRTStationDist stationDistLe := ⟨fun a b => le_total a.distance b.distance⟩

instance : IsTrans MRTStationDist stationDistLe := ⟨fun _ _ _ h₁ h₂ => le_trans h₁ h₂⟩

/-- `deduplicateStations` (lines 58-96). -/
def deduplicateStations (stations : List MRTStationDist) : List MRTStationDist :=
  let groups := stations.foldl dedupStep []
  List.insertionSort stationDistLe (groups.map (fun e => e.2.bestRepresentative))

/-- Lexicographic "at least as good a representative": strictly higher
priority (lower number), or equal priority and no larger distance. -/
def stationLex (r s : MRTStationDist) : Prop :=
  getStationPriority r.name < getStationPriority s.name ∨
  (getStationPriority r.name = getStationPriority s.name ∧ r.distance ≤ s.distance)

theorem stationLex_refl (r : MRTStationDist) : stationLex r r := Or.inr ⟨rfl, le_rfl⟩

/-- Group-map invariant A: every group's representative is a processed
station of that group's base name, lexicographically minimal among all
processed stations of that base name. -/
def InvA (P : List MRTStationDist) (groups : List (String × StationGroup)) : Prop :=
  ∀ e ∈ groups, e.2.bestRepresentative ∈ P ∧
    extractBaseName e.2.bestRepresentative.name = e.1 ∧
    ∀ s ∈ P, extractBaseName s.name = e.1 → stationLex e.2.bestRepresentative s

/-- Group-map invariant B: every processed station's base name has a group. -/
def InvB (P : List MRTStationDist) (groups : List (String × StationGroup)) : Prop :=
  ∀ s ∈ P, ∃ e ∈ groups, e.1 = extractBaseName s.name

theorem updateGroupEntry_fst (st : MRTStationDist) (bn : String)
    (e : String × StationGroup) : (updateGroupEntry st bn e).1 = e.1 := by
  rw [updateGroupEntry]
  dsimp only
  split_ifs <;> rfl

theorem dedupStep_invariant {P : List MRTStationDist}
    {groups : List (String × StationGroup)} (st : MRTStationDist)
    (h1 : InvA P groups) (h2 : InvB P groups) :
    InvA (P ++ [st]) (dedupStep groups st) ∧ InvB (P ++ [st]) (dedupStep groups st) := by
  rw [dedupStep]
  by_cases hhas : groups.any (fun e => e.1 = extractBaseName st.name)
  · rw [if_pos hhas]
    constructor
    · intro e' he'
      rw [List.mem_map] at he'
      obtain ⟨e, he, rfl⟩ := he'
      obtain ⟨hbm, hbn, hmin⟩ := h1 e he
      rw [updateGroupEntry]
      by_cases hk : e.1 = extractBaseName st.name
      · rw [if_pos hk]
        dsimp only
        by_cases hlt : getStationPriority st.name <
            getStationPriority e.2.bestRepresentative.name
        · rw [if_pos hlt]
          dsimp only
          refine ⟨List.mem_append_right _ (List.mem_singleton_self st), by rw [hk], ?_⟩
          intro s hs hsbn
          rcases List.mem_append.mp hs with hs | hs
          · rcases hmin s hs hsbn with hm | hm
            · exact Or.inl (lt_trans hlt hm)
            · exact Or.inl (lt_of_lt_of_le hlt (le_of_eq hm.1))
          · rw [List.mem_singleton.mp hs]
            exact stationLex_refl st
        · rw [if_neg hlt]
          by_cases heq : getStationPriority st.name =
              getStationPriority e.2.bestRepresentative.name ∧
              st.distance < e.2.bestRepresentative.distance
          · rw [if_pos heq]
            dsimp only
            refine ⟨List.mem_append_right _ (List.mem_singleton_self st), by rw [hk], ?_⟩
            intro s hs hsbn
            rcases List.mem_append.mp hs with hs | hs
            · rcases hmin s hs hsbn with hm | hm
              · exact Or.inl (lt_of_le_of_lt (le_of_eq heq.1) hm)
              · exact Or.inr ⟨heq.1.trans hm.1, le_trans (le_of_lt heq.2) hm.2⟩
            · rw [List.mem_singleton.mp hs]
              exact stationLex_refl st
          · rw [if_neg heq]
            dsimp only
            refine ⟨List.mem_append_left _ hbm, hbn, ?_⟩
            intro s hs hsbn
            rcases List.mem_append.mp hs with hs | hs
            · exact hmin s hs hsbn
            · rw [List.mem_singleton.mp hs]
              rcases lt_or_eq_of_le (not_lt.mp hlt) with hlt' | heq'
              · exact Or.inl hlt'
              · refine Or.inr ⟨heq', ?_⟩
                by_contra hcon
                exact heq ⟨heq'.symm, not_le.mp hcon⟩
      · rw [if_neg hk]
        refine ⟨List.mem_append_left _ hbm, hbn, ?_⟩
        intro s hs hsbn
        rcases List.mem_append.mp hs with hs | hs
        · exact hmin s hs hsbn
        · rw [List.mem_singleton.mp hs] at hsbn
          exact absurd hsbn (fun h => hk h.symm)
    · intro s hs
      rcases List.mem_append.mp hs with hs | hs
      · obtain ⟨e, he, hek⟩ := h2 s hs
        exact ⟨updateGroupEntry st (extractBaseName st.name) e,
          List.mem_map_of_mem _ he, by rw [updateGroupEntry_fst]; exact hek⟩
      · rw [List.mem_singleton.mp hs]
        rw [List.any_eq_true] at hhas
        obtain ⟨e, he, hek⟩ := hhas
        simp only [decide_eq_true_eq] at hek
        exact ⟨updateGroupEntry st (extractBaseName st.name) e,
          List.mem_map_of_mem _ he, by rw [updateGroupEntry_fst]; exact hek⟩
  · rw [if_neg hhas]
    have hnone : ∀ e ∈ groups, e.1 ≠ extractBaseName st.name := by
      intro e he
      rw [List.any_eq_true] at hhas
      push_neg at hhas
      have := hhas e he
      simpa using this
    constructor
    · intro e he
      rcases List.mem_append.mp he with he | he
      · obtain ⟨hbm, hbn, hmin⟩ := h1 e he
        refine ⟨List.mem_append_left _ hbm, hbn, ?_⟩
        intro s hs hsbn
        rcases List.mem_append.mp hs with hs | hs
        · exact hmin s hs hsbn
        · rw [List.mem_singleton.mp hs] at hsbn
          exact absurd hsbn (fun h => hnone e he h.symm)
      · rw [List.mem_singleton.mp he]
        dsimp only
        refine ⟨List.mem_append_right _ (List.mem_singleton_self st), rfl, ?_⟩
        intro s hs hsbn
        rcases List.mem_append.mp hs with hs | hs
        · exfalso
          obtain ⟨e', he', hek'⟩ := h2 s hs
          exact hnone e' he' (hek'.trans hsbn)
        · rw [List.mem_singleton.mp hs]
          exact stationLex_refl st
    · intro s hs
      rcases List.mem_append.mp hs with hs | hs
      · obtain ⟨e, he, hek⟩ := h2 s hs
        exact ⟨e, List.mem_append_left _ he, hek⟩
      · rw [List.mem_singleton.mp hs]
        exact ⟨(extractBaseName st.name, ⟨extractBaseName st.name, [st], st⟩),
          List.mem_append_right _ (List.mem_singleton_self _), rfl⟩

theorem dedup_fold_invariant :
    ∀ (l : List MRTStationDist) (P : List MRTStationDist)
      (groups : List (String × StationGroup)),
      InvA P groups → InvB P groups →
      InvA (P ++ l) (l.foldl dedupStep groups) ∧ InvB (P ++ l) (l.foldl dedupStep groups) := by
  intro l
  induction l with
  | nil =>
    intro P groups h1 h2
    simpa using ⟨h1, h2⟩
  | cons st l ih =>
    intro P groups h1 h2
    obtain ⟨h1', h2'⟩ := dedupStep_invariant st h1 h2
    have := ih (P ++ [st]) (dedupStep groups st) h1' h2'
    simpa [List.append_assoc] using this

/-- C5: `deduplicateStations` groups records by stripped base name and keeps
per group the record of lowest priority number, equal priorities tie-broken
by smaller distance: every returned representative is an input record that is
lexicographically minimal (priority, then distance) among all input records
sharing its base name, every input base name is represented, and the claim's
fixture reduces to the single `(CC24)` entry at distance 0.05. -/
theorem C5_station_dedup :
    (deduplicateStations
        [⟨"X MRT STATION EXIT A", "", 0, 0, 1/5⟩,
         ⟨"X MRT STATION (CC24)", "", 0, 0, 1/20⟩,
         ⟨"X MRT STATION EXIT B", "", 0, 0, 3/10⟩] =
      [⟨"X MRT STATION (CC24)", "", 0, 0, 1/20⟩]) ∧
    (∀ (stations : List MRTStationDist) (r : MRTStationDist),
      r ∈ deduplicateStations stations →
      r ∈ stations ∧
      ∀ s ∈ stations, extractBaseName s.name = extractBaseName r.name → stationLex r s) ∧
    (∀ (stations : List MRTStationDist) (s : MRTStationDist), s ∈ stations →
      ∃ r ∈ deduplicateStations stations,
        extractBaseName r.name = extractBaseName s.name) := by
  have hInv : ∀ stations : List MRTStationDist,
      InvA stations (stations.foldl dedupStep []) ∧
      InvB stations (stations.foldl dedupStep []) := by
    intro stations
    have := dedup_fold_invariant stations [] []
      (by intro e he; simp at he) (by intro s hs; simp at hs)
    simpa using this
  refine ⟨by with_unfolding_all decide, ?_, ?_⟩
  · intro stations r hr
    rw [deduplicateStations, (List.perm_insertionSort stationDistLe _).mem_iff,
      List.mem_map] at hr
    obtain ⟨e, he, rfl⟩ := hr
    obtain ⟨hmem, hbn, hmin⟩ := (hInv stations).1 e he
    exact ⟨hmem, fun s hs hsbn => hmin s hs (hsbn.trans hbn)⟩
  · intro stations s hs
    obtain ⟨e, he, hek⟩ := (hInv stations).2 s hs
    refine ⟨e.2.bestRepresentative, ?_, ?_⟩
    · rw [deduplicateStations, (List.perm_insertionSort stationDistLe _).mem_iff,
        List.mem_map]
      exact ⟨e, he, rfl⟩
    · exact ((hInv stations).1 e he).2.1.trans hek

/-- C5 witness: on the claim's fixture, the returned `(CC24)` record is an
input record of the same base name as the `EXIT A` record and beats it
strictly on priority, and the `EXIT A` record's base name is represented. -/
theorem C5_witness :
    ((⟨"X MRT STATION (CC24)", "", 0, 0, 1/20⟩ : MRTStationDist) ∈
        [(⟨"X MRT STATION EXIT A", "", 0, 0, 1/5⟩ : MRTStationDist),
         ⟨"X MRT STATION (CC24)", "", 0, 0, 1/20⟩,
         ⟨"X MRT STATION EXIT B", "", 0, 0, 3/10⟩] ∧
      stationLex ⟨"X MRT STATION (CC24)", "", 0, 0, 1/20⟩
        ⟨"X MRT STATION EXIT A", "", 0, 0, 1/5⟩) ∧
    (∃ r ∈ deduplicateStations
        [(⟨"X MRT STATION EXIT A", "", 0, 0, 1/5⟩ : MRTStationDist),
         ⟨"X MRT STATION (CC24)", "", 0, 0, 1/20⟩,
         ⟨"X MRT STATION EXIT B", "", 0, 0, 3/10⟩],
      extractBaseName r.name = extractBaseName "X MRT STATION EXIT B") := by
  constructor
  · have h := C5_station_dedup.2.1
      [⟨"X MRT STATION EXIT A", "", 0, 0, 1/5⟩,
       ⟨"X MRT STATION (CC24)", "", 0, 0, 1/20⟩,
       ⟨"X MRT STATION EXIT B", "", 0, 0, 3/10⟩]
      ⟨"X MRT STATION (CC24)", "", 0, 0, 1/20⟩
      (by with_unfolding_all decide)
    exact ⟨h.1, h.2 ⟨"X MRT STATION EXIT A", "", 0, 0, 1/5⟩
      (by with_unfolding_all decide) (by with_unfolding_all decide)⟩
  · exact C5_station_dedup.2.2
      [⟨"X MRT STATION EXIT A", "", 0, 0, 1/5⟩,
       ⟨"X MRT STATION (CC24)", "", 0, 0, 1/20⟩,
       ⟨"X MRT STATION EXIT B", "", 0, 0, 3/10⟩]
      ⟨"X MRT STATION EXIT B", "", 0, 0, 3/10⟩
      (by with_unfolding_all decide)

/-! ## Land-use diversity score (searchPlanningZones.ts lines 198-208,
claim C9). The input is the list of per-category percentage values
(`Object.values(landUseMix).map(stats => stats.percentage)`). -/

/-- `calculateDiversityScore`: negated Shannon sum over the `percentage/100`
proportions, divided by `Math.log(percentages.length)` when that is positive,
else `0`. -/
noncomputable def calculateDiversityScore (percentageValues : List ℚ) : ℝ :=
  let percentages : List ℝ := percentageValues.map (fun p : ℚ => (p : ℝ) / 100)
  let shannonIndex : ℝ :=
    -(percentages.foldl (fun sum p => if 0 < p then sum + p * Real.log p else sum) 0)
  let maxPossibleDiversity : ℝ := Real.log percentages.length
  if 0 < maxPossibleDiversity then shannonIndex / maxPossibleDiversity else 0

/-- The textbook Shannon entropy of a proportion list (`0 · log 0` read as
`0`), as the specification states it. -/
noncomputable def shannonEntropySpec (proportions : List ℝ) : ℝ :=
  -(proportions.map (fun p => if 0 < p then p * Real.log p else 0)).sum

theorem foldl_logsum (l : List ℝ) : ∀ a : ℝ,
    l.foldl (fun sum p => if 0 < p then sum + p * Real.log p else sum) a =
    a + (l.map (fun p => if 0 < p then p * Real.log p else 0)).sum := by
  induction l with
  | nil => intro a; simp
  | cons p l ih =>
    intro a
    rw [List.foldl_cons, List.map_cons, List.sum_cons]
    by_cases hp : (0 : ℝ) < p
    · rw [if_pos hp, if_pos hp, ih]
      ring
    · rw [if_neg hp, if_neg hp, ih]
      ring

/-- C9: the diversity score is the Shannon entropy of the percentage
proportions normalised by the log of the number of distinct categories
(`0` when that normaliser is not positive — in particular a single category
at 100% scores exactly 0), and four categories at 25% each score exactly 1. -/
theorem C9_diversity_score :
    (∀ ps : List ℚ, calculateDiversityScore ps =
      if 0 < Real.log ps.length then
        shannonEntropySpec (ps.map (fun p : ℚ => (p : ℝ) / 100)) / Real.log ps.length
      else 0) ∧
    calculateDiversityScore [100] = 0 ∧
    calculateDiversityScore [25, 25, 25, 25] = 1 := by
  have hgen : ∀ ps : List ℚ, calculateDiversityScore ps =
      if 0 < Real.log ps.length then
        shannonEntropySpec (ps.map (fun p : ℚ => (p : ℝ) / 100)) / Real.log ps.length
      else 0 := by
    intro ps
    rw [calculateDiversityScore]
    simp only [List.length_map]
    rw [foldl_logsum, zero_add, shannonEntropySpec]
  refine ⟨hgen, ?_, ?_⟩
  · rw [hgen]
    have h1 : Real.log (([100] : List ℚ).length) = 0 := by
      simp [Real.log_one]
    rw [h1]
    simp
  · rw [hgen]
    have hlen : ((([25, 25, 25, 25] : List ℚ).length : ℕ) : ℝ) = 4 := by norm_num
    have hlog : (0 : ℝ) < Real.log (([25, 25, 25, 25] : List ℚ).length) := by
      rw [hlen]
      exact Real.log_pos (by norm_num)
    rw [if_pos hlog, hlen]
    have hq : (((25 : ℚ) : ℝ) / 100) = (1 / 4 : ℝ) := by norm_num
    have hterm : (if (0 : ℝ) < ((25 : ℚ) : ℝ) / 100
        then ((25 : ℚ) : ℝ) / 100 * Real.log (((25 : ℚ) : ℝ) / 100) else 0) =
        (1 / 4 : ℝ) * Real.log (1 / 4) := by
      rw [if_pos (by rw [hq]; norm_num), hq]
    rw [shannonEntropySpec]
    simp only [List.map_cons, List.map_nil, List.sum_cons, List.sum_nil, hterm]
    have hlog14 : Real.log ((1 : ℝ) / 4) = -Real.log 4 := by
      rw [one_div, Real.log_inv]
    rw [hlog14]
    have hne : Real.log (4 : ℝ) ≠ 0 := ne_of_gt (Real.log_pos (by norm_num))
    field_simp
    ring

end PropertyAgent
